import Mathlib

/-!
# Verification of the `aura` real-time voice coordination layer

This file gives a shallow embedding of the WebRTC voice-chat subsystem
(`VoiceChat` class: peer-connection registry, signaling handling, proximity
membership resolution, push-to-talk and VAD gating, spatial gain control) and
of the shared bot movement helper (`updateBot`), and proves or refutes the
frozen specification claims about them.

Maps (`Map<string, ...>` in the source) are embedded as association lists with
JavaScript `Map` semantics (`aset` updates in place or appends, `aerase`
removes the entry with the given key).  Media objects (`RTCPeerConnection`,
`MediaStreamTrack`) live in identity-indexed heaps so that closing/stopping an
object remains observable after the registry entry is dropped.  Asynchronous
methods are embedded as atomic state transformers: in the source every
registry mutation happens in the synchronous prefix of its method (before the
first `await`), so an atomic step function is faithful for all
registry-related claims; signal sends and callback invocations are recorded in
an explicit event trace.  Floating-point formulas (spatial gain, bot
movement) are embedded over the reals.
-/

namespace Aura

/-! ## Association list primitives (JS `Map` semantics) -/

/-- Lookup of the first entry with the given key (JS `Map.get`). -/
def alookup {α β : Type} [DecidableEq α] : List (α × β) → α → Option β
  | [], _ => none
  | (k, v) :: t, a => if k = a then some v else alookup t a

/-- In-place update if the key is present, append otherwise (JS `Map.set`). -/
def aset {α β : Type} [DecidableEq α] : List (α × β) → α → β → List (α × β)
  | [], a, b => [(a, b)]
  | (k, v) :: t, a, b => if k = a then (a, b) :: t else (k, v) :: aset t a b

/-- Remove the entry with the given key (JS `Map.delete`). -/
def aerase {α β : Type} [DecidableEq α] : List (α × β) → α → List (α × β)
  | [], _ => []
  | (k, v) :: t, a => if k = a then t else (k, v) :: aerase t a

section AListLemmas

variable {α β : Type} [DecidableEq α]

theorem alookup_append_singleton_self {l : List (α × β)} {a : α} (b : β)
    (h : alookup l a = none) : alookup (l ++ [(a, b)]) a = some b := by
  induction l with
  | nil => simp [alookup]
  | cons e t ih =>
    obtain ⟨k, v⟩ := e
    by_cases hk : k = a
    · simp [alookup, hk] at h
    · simp only [alookup, hk, if_false] at h
      simpa [alookup, hk] using ih h

theorem alookup_append_singleton_ne {l : List (α × β)} {a a' : α} (b : β)
    (h : a' ≠ a) : alookup (l ++ [(a, b)]) a' = alookup l a' := by
  induction l with
  | nil => simp [alookup, Ne.symm h]
  | cons e t ih =>
    obtain ⟨k, v⟩ := e
    by_cases hk : k = a' <;> simp [alookup, hk, ih]

theorem alookup_aset_self (l : List (α × β)) (a : α) (b : β) :
    alookup (aset l a b) a = some b := by
  induction l with
  | nil => simp [aset, alookup]
  | cons e t ih =>
    obtain ⟨k, v⟩ := e
    by_cases h : k = a <;> simp [aset, alookup, h, ih]

theorem alookup_aset_ne (l : List (α × β)) {a a' : α} (b : β) (h : a' ≠ a) :
    alookup (aset l a b) a' = alookup l a' := by
  induction l with
  | nil => simp [aset, alookup, Ne.symm h]
  | cons e t ih =>
    obtain ⟨k, v⟩ := e
    by_cases hk : k = a
    · subst hk
      simp [aset, alookup, Ne.symm h]
    · by_cases hk' : k = a' <;> simp [aset, alookup, hk, hk', h, ih]

theorem alookup_aerase_ne (l : List (α × β)) {a a' : α} (h : a' ≠ a) :
    alookup (aerase l a) a' = alookup l a' := by
  induction l with
  | nil => simp [aerase]
  | cons e t ih =>
    obtain ⟨k, v⟩ := e
    by_cases hk : k = a
    · subst hk
      simp [aerase, alookup, Ne.symm h]
    · by_cases hk' : k = a' <;> simp [aerase, alookup, hk, hk', h, ih]

theorem alookup_isSome_of_mem_keys {l : List (α × β)} {a : α}
    (h : a ∈ l.map Prod.fst) : (alookup l a).isSome = true := by
  induction l with
  | nil => simp at h
  | cons e t ih =>
    obtain ⟨k, v⟩ := e
    by_cases hk : k = a
    · simp [alookup, hk]
    · simp only [List.map_cons, List.mem_cons] at h
      rcases h with h | h
      · exact absurd h.symm hk
      · simp [alookup, hk, ih h]

theorem mem_keys_of_alookup_isSome {l : List (α × β)} {a : α}
    (h : (alookup l a).isSome = true) : a ∈ l.map Prod.fst := by
  induction l with
  | nil => simp [alookup] at h
  | cons e t ih =>
    obtain ⟨k, v⟩ := e
    by_cases hk : k = a
    · simp [hk]
    · simp only [alookup, hk, if_false] at h
      simpa using Or.inr (ih h)

theorem mem_of_alookup_eq_some {l : List (α × β)} {a : α} {b : β}
    (h : alookup l a = some b) : (a, b) ∈ l := by
  induction l with
  | nil => simp [alookup] at h
  | cons e t ih =>
    obtain ⟨k, v⟩ := e
    by_cases hk : k = a
    · subst hk
      simp [alookup] at h
      simp [h]
    · simp only [alookup, hk, if_false] at h
      exact List.mem_cons_of_mem _ (ih h)

theorem alookup_eq_some_of_mem_nodup {l : List (α × β)} {a : α} {b : β}
    (hnd : (l.map Prod.fst).Nodup) (h : (a, b) ∈ l) : alookup l a = some b := by
  induction l with
  | nil => simp at h
  | cons e t ih =>
    obtain ⟨k, v⟩ := e
    simp only [List.map_cons, List.nodup_cons] at hnd
    rcases List.mem_cons.mp h with h | h
    · injection h with h1 h2
      subst h1
      subst h2
      simp [alookup]
    · by_cases hk : k = a
      · exact absurd (hk ▸ (List.mem_map.mpr ⟨(a, b), h, rfl⟩)) hnd.1
      · simp only [alookup, hk, if_false]
        exact ih hnd.2 h

theorem alookup_aerase_self_of_nodup {l : List (α × β)} {a : α}
    (hnd : (l.map Prod.fst).Nodup) : alookup (aerase l a) a = none := by
  induction l with
  | nil => simp [aerase, alookup]
  | cons e t ih =>
    obtain ⟨k, v⟩ := e
    simp only [List.map_cons, List.nodup_cons] at hnd
    by_cases hk : k = a
    · subst hk
      simp only [aerase, if_pos rfl]
      cases h : alookup t k with
      | none => exact h
      | some b =>
        exact absurd (List.mem_map.mpr ⟨(k, b), mem_of_alookup_eq_some h, rfl⟩) hnd.1
    · simp [aerase, alookup, hk, ih hnd.2]

theorem aerase_sublist (l : List (α × β)) (a : α) : (aerase l a).Sublist l := by
  induction l with
  | nil => simp [aerase]
  | cons e t ih =>
    obtain ⟨k, v⟩ := e
    by_cases hk : k = a
    · simp only [aerase, if_pos hk]
      exact List.sublist_cons_self (k, v) t
    · simpa [aerase, hk] using ih.cons₂ (k, v)

theorem keys_nodup_aerase (l : List (α × β)) (a : α)
    (hnd : (l.map Prod.fst).Nodup) : ((aerase l a).map Prod.fst).Nodup :=
  hnd.sublist ((aerase_sublist l a).map Prod.fst)

theorem keys_aset_of_mem {l : List (α × β)} {a : α} (b : β)
    (h : a ∈ l.map Prod.fst) : (aset l a b).map Prod.fst = l.map Prod.fst := by
  induction l with
  | nil => simp at h
  | cons e t ih =>
    obtain ⟨k, v⟩ := e
    by_cases hk : k = a
    · simp [aset, hk]
    · simp only [List.map_cons, List.mem_cons] at h
      rcases h with h | h
      · exact absurd h.symm hk
      · simp [aset, hk, ih h]

theorem keys_aset_of_not_mem {l : List (α × β)} {a : α} (b : β)
    (h : a ∉ l.map Prod.fst) :
    (aset l a b).map Prod.fst = l.map Prod.fst ++ [a] := by
  induction l with
  | nil => simp [aset]
  | cons e t ih =>
    obtain ⟨k, v⟩ := e
    simp only [List.map_cons, List.mem_cons] at h
    push_neg at h
    by_cases hk : k = a
    · exact absurd hk.symm h.1
    · simp [aset, hk, ih h.2]

theorem keys_nodup_aset {l : List (α × β)} {a : α} (b : β)
    (hnd : (l.map Prod.fst).Nodup) : ((aset l a b).map Prod.fst).Nodup := by
  by_cases h : a ∈ l.map Prod.fst
  · rwa [keys_aset_of_mem b h]
  · rw [keys_aset_of_not_mem b h]
    simp [List.nodup_append, hnd, h]

end AListLemmas

/-- Iterated in-place update: apply `f` to the stored value at every key in
`ks` (keys with no entry are skipped).  Used for `forEach`-style mutation of
a collection of objects (closing every peer connection, stopping every
track, toggling every track gate). -/
def bumpAll {α β : Type} [DecidableEq α] (f : β → β) (ks : List α)
    (h : List (α × β)) : List (α × β) :=
  ks.foldl (fun acc k =>
    match alookup acc k with
    | some v => aset acc k (f v)
    | none => acc) h

/-! ## Data model

Embedded from `src/unnamed/part_001` (class `VoiceChat`).  The `Settings`
object is typed only as an external `Settings` import in the source; the
fields below are exactly those the voice module reads: `settings.volume`
(typed access, line 227), and the untyped accesses `(settings as any).ptt`,
`(settings as any).sensitivity`, `(settings as any).vad` (lines 49, 70, 74,
76), the latter three possibly `undefined` and therefore embedded as `Option`
(with `Bool` truthiness for `ptt`).  JS `x || d` on numbers (which replaces
both `undefined` and `0` by `d`) is embedded by `jsOrQ`. -/

/-- JS `x || default` for an optional numeric setting: `undefined` and `0`
are both replaced by the default. -/
def jsOrQ (x : Option ℚ) (d : ℚ) : ℚ :=
  match x with
  | none => d
  | some v => if v = 0 then d else v

/-- The settings fields read by `VoiceChat`. -/
structure Settings where
  ptt : Bool
  sensitivity : Option ℚ
  vad : Option Bool
  volume : ℚ
deriving DecidableEq

/-- A `MediaStreamTrack`: its transmission gate (`enabled`) and whether
`stop()` has been called on it. -/
structure Track where
  enabled : Bool
  stopped : Bool
deriving DecidableEq

/-- WebRTC signaling state of an `RTCPeerConnection` (the states the voice
module can reach). -/
inductive SigState
  | stable
  | haveLocalOffer
  | haveRemoteOffer
deriving DecidableEq

/-- An `RTCPeerConnection` object: which peer it was created for, its
signaling state, whether a remote description has been applied (the
precondition for `addIceCandidate` to succeed), and whether it is closed. -/
structure PCState where
  forPeer : String
  sigState : SigState
  remoteDescSet : Bool
  closed : Bool
deriving DecidableEq

/-- A fresh `RTCPeerConnection` for the given peer. -/
def newPC (pid : String) : PCState :=
  { forPeer := pid, sigState := SigState.stable, remoteDescSet := false, closed := false }

/-- `createOffer` + `setLocalDescription(offer)`. -/
def setLocalOffer (pc : PCState) : PCState :=
  { pc with sigState := SigState.haveLocalOffer }

/-- `setRemoteDescription({type: offer})`. -/
def setRemoteOffer (pc : PCState) : PCState :=
  { pc with sigState := SigState.haveRemoteOffer, remoteDescSet := true }

/-- `createAnswer` + `setLocalDescription(answer)`. -/
def setLocalAnswer (pc : PCState) : PCState :=
  { pc with sigState := SigState.stable }

/-- `setRemoteDescription({type: answer})`. -/
def setRemoteAnswer (pc : PCState) : PCState :=
  { pc with sigState := SigState.stable, remoteDescSet := true }

/-- `pc.close()`. -/
def closePC (pc : PCState) : PCState :=
  { pc with closed := true }

/-- `pc.addIceCandidate(c)`: rejects when no remote description has been set
(the race the source catches and logs). -/
def addIceCandidate (pc : PCState) : Except String PCState :=
  if pc.remoteDescSet then Except.ok pc else Except.error "remote description not set"

/-- Payload of a signal envelope (opaque to the core beyond presence). -/
structure SigData where
  sdp : Option String
  candidate : Option String
deriving DecidableEq

/-- An inbound signal `{from, signalType, data}` (`from` is a Lean keyword,
so the field is named `fromId`). -/
structure Envelope where
  fromId : String
  signalType : String
  data : SigData
deriving DecidableEq

/-- Observable actions of the voice module: registry insertion of a freshly
created connection, a call to the signal sender, `pc.close()`, the logged
and swallowed ICE failure, and the start of the VAD loop. -/
inductive Event
  | registered (peerId : String) (pcId : ℕ)
  | sentSignal (target : String) (signalType : String)
  | closedPc (pcId : ℕ)
  | warnIce
  | vadStarted
deriving DecidableEq

/-- The full state of a `VoiceChat` instance.  `peers`, `gains`,
`audioElements` mirror the three maps of the class (`gains` and
`audioElements` by their key sets); `pcs` and `tracks` are identity heaps for
the `RTCPeerConnection` and `MediaStreamTrack` objects, with `localStream`
holding the ids of the capture stream's tracks. -/
structure VCState where
  settings : Settings
  enabled : Bool
  localStream : Option (List ℕ)
  audioContext : Bool
  analyser : Bool
  peers : List (String × ℕ)
  gains : List String
  audioElements : List String
  isSpeaking : Bool
  isPTTActive : Bool
  vadThreshold : ℚ
  userId : String
  signalSender : Bool
  pcs : List (ℕ × PCState)
  tracks : List (ℕ × Track)
  nextPc : ℕ
  nextTrack : ℕ
deriving DecidableEq

/-- The constructor state (field initializers, lines 8–19). -/
def mkVoiceChat (st : Settings) : VCState :=
  { settings := st, enabled := false, localStream := none, audioContext := false
    analyser := false, peers := [], gains := [], audioElements := []
    isSpeaking := false, isPTTActive := false, vadThreshold := 1/50
    userId := "", signalSender := false, pcs := [], tracks := []
    nextPc := 0, nextTrack := 0 }

/-- Ids of the local capture stream's tracks (empty when no stream is held). -/
def streamIds (s : VCState) : List ℕ :=
  s.localStream.getD []

/-- Update the heap object for `pcId` (no-op when absent). -/
def modifyPc (s : VCState) (pcId : ℕ) (f : PCState → PCState) : VCState :=
  match alookup s.pcs pcId with
  | some pc => { s with pcs := aset s.pcs pcId (f pc) }
  | none => s

/-! ## Operations (embedded from `VoiceChat`, `src/unnamed/part_001`) -/

/-- `init()` (lines 31–59).  The fallible step is microphone acquisition:
`mic = some n` models `getUserMedia` resolving with a stream of `n` audio
tracks, `mic = none` models rejection (permission denied).  On success the
analysis path is opened, every track's gate is set to `!settings.ptt`
(lines 47–50), capture is enabled and the VAD loop started; on failure the
error is logged and `false` returned. -/
def init (s : VCState) (mic : Option ℕ) : Bool × VCState × List Event :=
  match mic with
  | none => (false, s, [])
  | some n =>
    let ids := (List.range n).map (fun i => s.nextTrack + i)
    let tracks1 := s.tracks ++ ids.map (fun i => (i, ({ enabled := true, stopped := false } : Track)))
    let tracks2 := bumpAll (fun t => { t with enabled := !s.settings.ptt }) ids tracks1
    (true,
      { s with localStream := some ids, audioContext := true, analyser := true
               tracks := tracks2, nextTrack := s.nextTrack + n, enabled := true },
      [Event.vadStarted])

/-- `setPTT(active)` (lines 90–97): records the gate and mirrors `active`
onto every capture track's `enabled` flag (unconditionally — the source does
not consult `settings.ptt` here). -/
def setPTT (s : VCState) (active : Bool) : VCState :=
  { s with isPTTActive := active
           tracks := bumpAll (fun t => { t with enabled := active }) (streamIds s) s.tracks }

/-- Synchronous prefix of `connectToPeer` after the guard: create the
connection and register it (line 139).  Returns the new pc id. -/
def registerPC (s : VCState) (pid : String) : VCState × ℕ :=
  ({ s with pcs := s.pcs ++ [(s.nextPc, newPC pid)]
            peers := s.peers ++ [(pid, s.nextPc)]
            nextPc := s.nextPc + 1 }, s.nextPc)

/-- `connectToPeer(peerId)` (lines 99–149): no-op returning `null` when voice
is disabled or a connection already exists; otherwise create and register the
connection, construct and apply the local offer, and hand the offer envelope
to the signal sender (if configured).  The returned trace records the
registry insertion *then* the send, in source order. -/
def connectToPeer (s : VCState) (pid : String) : VCState × List Event × Option ℕ :=
  if ¬s.enabled ∨ (alookup s.peers pid).isSome then (s, [], none)
  else
    let r := registerPC s pid
    let s2 := modifyPc r.1 r.2 setLocalOffer
    (s2,
      Event.registered pid r.2 ::
        (if s.signalSender then [Event.sentSignal pid "offer"] else []),
      some r.2)

/-- `handleSignal(signal)` (lines 151–220). -/
def handleSignal (s : VCState) (env : Envelope) : VCState × List Event :=
  if ¬s.enabled then (s, [])
  else if env.signalType = "offer" then
    match alookup s.peers env.fromId with
    | some pcId =>
      (modifyPc s pcId (fun pc => setLocalAnswer (setRemoteOffer pc)),
        if s.signalSender then [Event.sentSignal env.fromId "answer"] else [])
    | none =>
      let r := registerPC s env.fromId
      (modifyPc r.1 r.2 (fun pc => setLocalAnswer (setRemoteOffer pc)),
        Event.registered env.fromId r.2 ::
          (if s.signalSender then [Event.sentSignal env.fromId "answer"] else []))
  else if env.signalType = "answer" then
    match alookup s.peers env.fromId with
    | some pcId =>
      match alookup s.pcs pcId with
      | some pc =>
        if pc.sigState ≠ SigState.stable then (modifyPc s pcId setRemoteAnswer, [])
        else (s, [])
      | none => (s, [])
    | none => (s, [])
  else if env.signalType = "ice" ∧ env.data.candidate.isSome then
    match alookup s.peers env.fromId with
    | some pcId =>
      match alookup s.pcs pcId with
      | some pc =>
        match addIceCandidate pc with
        | Except.ok pc' => (modifyPc s pcId (fun _ => pc'), [])
        | Except.error _ => (s, [Event.warnIce])
      | none => (s, [])
    | none => (s, [])
  else (s, [])

/-- `disconnectPeer(peerId)` (lines 232–247): close and deregister the
connection if present; always drop the gain node and the playback element. -/
def disconnectPeer (s : VCState) (pid : String) : VCState × List Event :=
  match alookup s.peers pid with
  | some pcId =>
    let s1 :=
      match alookup s.pcs pcId with
      | some pc => { s with pcs := aset s.pcs pcId (closePC pc) }
      | none => s
    ({ s1 with peers := aerase s1.peers pid
               gains := s1.gains.erase pid
               audioElements := s1.audioElements.erase pid },
      [Event.closedPc pcId])
  | none =>
    ({ s with gains := s.gains.erase pid, audioElements := s.audioElements.erase pid }, [])

/-- One iteration of the connect loop of `updateNearbyPeers` (lines 257–263). -/
def connectStep (acc : VCState × List Event) (pid : String) : VCState × List Event :=
  if pid = acc.1.userId then acc
  else if (alookup acc.1.peers pid).isSome then acc
  else
    let r := connectToPeer acc.1 pid
    (r.1, acc.2 ++ r.2.1)

/-- One iteration of the disconnect loop of `updateNearbyPeers`
(lines 266–271). -/
def disconnectStep (nearby : List String) (acc : VCState × List Event)
    (pid : String) : VCState × List Event :=
  if pid ∈ nearby then acc
  else
    let r := disconnectPeer acc.1 pid
    (r.1, acc.2 ++ r.2)

/-- `updateNearbyPeers(nearbyPlayerIds, voiceRange)` (lines 253–272): connect
to nearby ids not yet registered (skipping self), then disconnect every
registered peer absent from the nearby set.  `voiceRange` is accepted and
unused, as in the source. -/
def updateNearbyPeers (s : VCState) (nearby : List String) (_voiceRange : ℚ) :
    VCState × List Event :=
  if ¬s.enabled then (s, [])
  else
    let a1 := nearby.foldl connectStep (s, [])
    let ks := a1.1.peers.map Prod.fst
    ks.foldl (disconnectStep nearby) a1

/-- `disable()` (lines 281–300): clear the enabled/speaking flags, stop every
capture track and drop the stream, close every registered connection, and
clear the three maps.  `audioContext` and `analyser` are not touched by the
source. -/
def disable (s : VCState) : VCState :=
  { s with enabled := false, isSpeaking := false
           tracks := bumpAll (fun t => { t with stopped := true }) (streamIds s) s.tracks
           localStream := none
           pcs := bumpAll closePC (s.peers.map Prod.snd) s.pcs
           peers := [], gains := [], audioElements := [] }

/-- Mean byte level normalized to `[0,1]` (line 69). -/
def avgOf (bytes : List ℕ) : ℚ :=
  (bytes.sum : ℚ) / (bytes.length : ℚ) / 255

/-- One frame of the VAD loop (`check` inside `startVAD`, lines 65–86).
Returns the new state, the argument of the `onSpeakingChange` callback if it
fired, and the argument of the `onVolumeUpdate` callback if it fired. -/
def vadFrame (s : VCState) (bytes : List ℕ) : VCState × Option Bool × Option ℚ :=
  if ¬s.enabled ∨ ¬s.analyser then (s, none, none)
  else
    let avg := avgOf bytes
    let threshold := s.vadThreshold * (1 + (1 - jsOrQ s.settings.sensitivity (1/2)))
    let wasSpeaking := s.isSpeaking
    let speaking :=
      if s.settings.ptt then s.isPTTActive && decide (avg > threshold * (1/2))
      else if s.settings.vad ≠ some false then decide (avg > threshold)
      else wasSpeaking
    ({ s with isSpeaking := speaking },
      (if speaking ≠ wasSpeaking then some speaking else none),
      some avg)

theorem bumpAll_cons {α β : Type} [DecidableEq α] (f : β → β) (k0 : α)
    (ks : List α) (h : List (α × β)) :
    bumpAll f (k0 :: ks) h =
      bumpAll f ks
        (match alookup h k0 with
          | some v => aset h k0 (f v)
          | none => h) := rfl

theorem alookup_bumpAll {α β : Type} [DecidableEq α] (f : β → β)
    (hf : ∀ v, f (f v) = f v) (ks : List α) (h : List (α × β)) (k : α) :
    alookup (bumpAll f ks h) k =
      if k ∈ ks then (alookup h k).map f else alookup h k := by
  induction ks generalizing h with
  | nil => simp [bumpAll]
  | cons k0 t ih =>
    rw [bumpAll_cons, ih]
    by_cases hk : k = k0
    · subst hk
      have hstep :
          alookup
            (match alookup h k with
              | some v => aset h k (f v)
              | none => h) k = (alookup h k).map f := by
        cases hv : alookup h k with
        | none => simp [hv]
        | some v => simp [hv, alookup_aset_self]
      rw [hstep]
      by_cases hmem : k ∈ t
      · simp only [hmem, if_true, List.mem_cons, true_or, if_true]
        cases alookup h k <;> simp [hf]
      · simp [hmem]
    · have hstep :
          alookup
            (match alookup h k0 with
              | some v => aset h k0 (f v)
              | none => h) k = alookup h k := by
        cases hv : alookup h k0 with
        | none => simp [hv]
        | some v => simp [hv, alookup_aset_ne _ _ hk]
      rw [hstep]
      simp [List.mem_cons, hk]

/-! ## Spatial gain (`updateSpatialAudio`, lines 222–230)

The floating-point volume formula is embedded over the reals with `Real.rpow`
for `Math.pow(·, 0.8)`. -/

/-- The target volume the source computes (lines 226–227):
`max(0, 1 - (distance/maxDistance)^0.8) * (settings.volume || 0.7)`. -/
noncomputable def spatialVolume (distance maxDistance : ℝ) (masterVolume : ℚ) : ℝ :=
  max 0 (1 - (distance / maxDistance) ^ (0.8 : ℝ)) *
    ((jsOrQ (some masterVolume) (7/10) : ℚ) : ℝ)

/-- The target volume as worded by the claim: the shaping term multiplied by
the master volume setting itself (no default substitution). -/
noncomputable def spatialVolumeSpec (distance maxDistance : ℝ) (masterVolume : ℚ) : ℝ :=
  max 0 (1 - (distance / maxDistance) ^ (0.8 : ℝ)) * (masterVolume : ℝ)

/-- `updateSpatialAudio(peerId, distance, maxDistance)`: no-op when no gain
node is registered for the peer or no audio context is active; otherwise
emits the `setTargetAtTime` command with the computed target volume (the
second component). -/
noncomputable def updateSpatialAudio (s : VCState) (pid : String)
    (distance maxDistance : ℝ) : VCState × Option ℝ :=
  if ¬(pid ∈ s.gains) ∨ ¬s.audioContext then (s, none)
  else (s, some (spatialVolume distance maxDistance s.settings.volume))

/-! ## Operation sequences

`Op` packages the externally callable state-mutating operations so that
invariants can be stated over arbitrary interleaved call sequences. -/

/-- An externally triggered operation on a `VoiceChat` instance. -/
inductive Op
  | initOp (mic : Option ℕ)
  | connect (pid : String)
  | signal (env : Envelope)
  | disconnect (pid : String)
  | nearby (ids : List String) (range : ℚ)
  | disableOp
  | ptt (active : Bool)
  | frame (bytes : List ℕ)

/-- Apply one operation (discarding return values and traces). -/
def stepOp (s : VCState) : Op → VCState
  | Op.initOp mic => (init s mic).2.1
  | Op.connect pid => (connectToPeer s pid).1
  | Op.signal env => (handleSignal s env).1
  | Op.disconnect pid => (disconnectPeer s pid).1
  | Op.nearby ids range => (updateNearbyPeers s ids range).1
  | Op.disableOp => disable s
  | Op.ptt active => setPTT s active
  | Op.frame bytes => (vadFrame s bytes).1

/-- Run a call sequence from a state. -/
def runOps (s : VCState) (ops : List Op) : VCState :=
  ops.foldl stepOp s

/-- Number of non-closed `RTCPeerConnection` objects created for `pid`. -/
def countNonClosed (s : VCState) (pid : String) : ℕ :=
  (s.pcs.filter (fun e => e.2.forPeer == pid && !e.2.closed)).length

/-! ## Bot movement (`updateBot`, `src/unnamed/part_007`, lines 53–82)

`SHARED_CONFIG.CAMPFIRE_RADIUS = 1200` comes from the shared constants file
(`src/unnamed/part_008`).  The two `Math.random()` draws of `updateBot` (the
2%-probability direction jitter) are passed in as explicit inputs `r1`, `r2`;
`Math.hypot`, `Math.atan2`, `Math.cos`, `Math.sin` are embedded over ℝ. -/

/-- `SHARED_CONFIG.CAMPFIRE_RADIUS`. -/
def campfireRadius : ℝ := 1200

/-- A bot entity (`createBot`'s fields). -/
structure Bot where
  id : String
  x : ℝ
  y : ℝ
  vx : ℝ
  vy : ℝ
  hue : ℝ
  name : String
  xp : ℝ
  moveAngle : ℝ
  timer : ℕ
  actionTimer : ℕ
  thinkTimer : ℕ
  realm : String

/-- `Math.atan2` (principal value; the signed-zero corner of JS is collapsed
to the `y = 0` case). -/
noncomputable def atan2 (y x : ℝ) : ℝ :=
  if 0 < x then Real.arctan (y / x)
  else if x < 0 then
    (if 0 ≤ y then Real.arctan (y / x) + Real.pi else Real.arctan (y / x) - Real.pi)
  else if 0 < y then Real.pi / 2
  else if y < 0 then -(Real.pi / 2)
  else 0

/-- `updateBot(bot, targetX, targetY)`: ticks the three timers, jitters the
heading with probability 0.02 (`r1 < 0.02`, offset `(r2 - 0.5) * 2`), springs
the heading toward the target when the target distance is strictly between
100 and 400, springs the heading toward the origin when the distance to the
origin exceeds `CAMPFIRE_RADIUS`, then applies the 0.2 impulse along the
final heading, the 0.94 damping, and the position update. -/
noncomputable def updateBot (bot : Bot) (target : Option (ℝ × ℝ)) (r1 r2 : ℝ) : Bot :=
  let a0 := if r1 < 0.02 then bot.moveAngle + (r2 - 0.5) * 2 else bot.moveAngle
  let a1 :=
    match target with
    | some (tx, ty) =>
      let distToTarget := Real.sqrt ((bot.x - tx) ^ 2 + (bot.y - ty) ^ 2)
      if distToTarget < 400 ∧ 100 < distToTarget then
        a0 * 0.95 + atan2 (ty - bot.y) (tx - bot.x) * 0.05
      else a0
    | none => a0
  let distToCenter := Real.sqrt (bot.x ^ 2 + bot.y ^ 2)
  let a2 := if campfireRadius < distToCenter then a1 * 0.9 + atan2 (-bot.y) (-bot.x) * 0.1 else a1
  let vx1 := (bot.vx + Real.cos a2 * 0.2) * 0.94
  let vy1 := (bot.vy + Real.sin a2 * 0.2) * 0.94
  { bot with
      timer := bot.timer + 1, actionTimer := bot.actionTimer + 1
      thinkTimer := bot.thinkTimer + 1
      moveAngle := a2, vx := vx1, vy := vy1
      x := bot.x + vx1, y := bot.y + vy1 }

/-- The bot update as worded by the claim: the heading springs toward the
target when the target distance is in-band, *else* springs toward the world
center; then impulse 0.2 along the heading, damping 0.94, position update
(no randomness mentioned). -/
noncomputable def updateBotSpec (bot : Bot) (target : Option (ℝ × ℝ)) : Bot :=
  let a2 :=
    match target with
    | some (tx, ty) =>
      let d := Real.sqrt ((bot.x - tx) ^ 2 + (bot.y - ty) ^ 2)
      if d < 400 ∧ 100 < d then bot.moveAngle * 0.95 + atan2 (ty - bot.y) (tx - bot.x) * 0.05
      else bot.moveAngle * 0.9 + atan2 (-bot.y) (-bot.x) * 0.1
    | none => bot.moveAngle * 0.9 + atan2 (-bot.y) (-bot.x) * 0.1
  let vx1 := (bot.vx + Real.cos a2 * 0.2) * 0.94
  let vy1 := (bot.vy + Real.sin a2 * 0.2) * 0.94
  { bot with
      timer := bot.timer + 1, actionTimer := bot.actionTimer + 1
      thinkTimer := bot.thinkTimer + 1
      moveAngle := a2, vx := vx1, vy := vy1
      x := bot.x + vx1, y := bot.y + vy1 }

/-! ## Further association-list lemmas -/

section AListLemmas2

variable {α β : Type} [DecidableEq α]

theorem alookup_append_left {l₁ l₂ : List (α × β)} {a : α} {b : β}
    (h : alookup l₁ a = some b) : alookup (l₁ ++ l₂) a = some b := by
  induction l₁ with
  | nil => simp [alookup] at h
  | cons e t ih =>
    obtain ⟨k, v⟩ := e
    by_cases hk : k = a
    · simp only [alookup, if_pos hk] at h
      simp [alookup, hk, h]
    · simp only [alookup, hk, if_false] at h
      simpa [alookup, hk] using ih h

theorem aset_mem_cases {l : List (α × β)} {a : α} {b : β} {e : α × β}
    (h : e ∈ aset l a b) : e = (a, b) ∨ e ∈ l := by
  induction l with
  | nil => simpa [aset] using h
  | cons e0 t ih =>
    obtain ⟨k, v⟩ := e0
    by_cases hk : k = a
    · simp only [aset, if_pos hk, List.mem_cons] at h
      rcases h with h | h
      · exact Or.inl h
      · exact Or.inr (List.mem_cons_of_mem _ h)
    · simp only [aset, hk, if_false, List.mem_cons] at h
      rcases h with h | h
      · exact Or.inr (List.mem_cons.mpr (Or.inl h))
      · rcases ih h with h' | h'
        · exact Or.inl h'
        · exact Or.inr (List.mem_cons_of_mem _ h')

theorem aset_self_of_alookup {l : List (α × β)} {a : α} {b : β}
    (h : alookup l a = some b) : aset l a b = l := by
  induction l with
  | nil => simp [alookup] at h
  | cons e t ih =>
    obtain ⟨k, v⟩ := e
    by_cases hk : k = a
    · subst hk
      simp [alookup] at h
      simp [aset, h]
    · simp only [alookup, hk, if_false] at h
      simp [aset, hk, ih h]

theorem keys_bumpAll (f : β → β) (ks : List α) (h : List (α × β)) :
    (bumpAll f ks h).map Prod.fst = h.map Prod.fst := by
  induction ks generalizing h with
  | nil => simp [bumpAll]
  | cons k0 t ih =>
    rw [bumpAll_cons]
    cases hv : alookup h k0 with
    | none => simp [hv, ih]
    | some v =>
      rw [ih]
      exact keys_aset_of_mem (f v) (mem_keys_of_alookup_isSome (by simp [hv]))

theorem alookup_eq_none_of_not_mem_keys {l : List (α × β)} {a : α}
    (h : a ∉ l.map Prod.fst) : alookup l a = none := by
  cases hv : alookup l a with
  | none => rfl
  | some b => exact absurd (mem_keys_of_alookup_isSome (by simp [hv])) h

end AListLemmas2

/-! ## The registry invariant (claim C1) -/

/-- Well-formedness of the peer-connection registry: the registry and the
connection heap have no duplicate keys, heap ids are below the allocation
counter, every registry entry points at a non-closed heap connection created
for that peer, and every non-closed heap connection is the registered one for
its peer. -/
def PeerInv (s : VCState) : Prop :=
  (s.peers.map Prod.fst).Nodup ∧
  (s.pcs.map Prod.fst).Nodup ∧
  (∀ e ∈ s.pcs, e.1 < s.nextPc) ∧
  (∀ e ∈ s.peers,
    ∃ pc, alookup s.pcs e.2 = some pc ∧ pc.forPeer = e.1 ∧ pc.closed = false) ∧
  (∀ e ∈ s.pcs, e.2.closed = false → alookup s.peers e.2.forPeer = some e.1)

theorem filter_length_le_one {l : List (ℕ × PCState)} {p : ℕ × PCState → Bool}
    {n : ℕ} (hnd : (l.map Prod.fst).Nodup)
    (hp : ∀ e ∈ l, p e = true → e.1 = n) : (l.filter p).length ≤ 1 := by
  induction l with
  | nil => simp
  | cons e t ih =>
    simp only [List.map_cons, List.nodup_cons] at hnd
    by_cases hpe : p e = true
    · have he : e.1 = n := hp e (List.mem_cons_self e t) hpe
      have ht : t.filter p = [] := by
        apply List.filter_eq_nil_iff.mpr
        intro a ha hpa
        have : a.1 = n := hp a (List.mem_cons_of_mem _ ha) hpa
        exact hnd.1 (he ▸ this ▸ List.mem_map.mpr ⟨a, ha, rfl⟩)
      simp [List.filter, hpe, ht]
    · simp only [List.filter, hpe]
      simpa using ih hnd.2 (fun a ha hpa => hp a (List.mem_cons_of_mem _ ha) hpa)

/-- Under the invariant, at most one non-closed connection exists per peer
id. -/
theorem countNonClosed_le_one {s : VCState} (h : PeerInv s) (pid : String) :
    countNonClosed s pid ≤ 1 := by
  obtain ⟨-, hnd, -, -, hopen⟩ := h
  by_cases hreg : (alookup s.peers pid).isSome
  · obtain ⟨n, hn⟩ := Option.isSome_iff_exists.mp hreg
    apply filter_length_le_one hnd
    intro e he hpe
    simp only [Bool.and_eq_true, beq_iff_eq, Bool.not_eq_true'] at hpe
    have := hopen e he hpe.2
    rw [hpe.1] at this
    rw [this] at hn
    exact (Option.some.injEq .. ▸ hn)
  · have : s.pcs.filter (fun e => e.2.forPeer == pid && !e.2.closed) = [] := by
      apply List.filter_eq_nil_iff.mpr
      intro e he hpe
      simp only [Bool.and_eq_true, beq_iff_eq, Bool.not_eq_true'] at hpe
      have := hopen e he hpe.2
      rw [hpe.1] at this
      exact hreg (by simp [this])
    simp [countNonClosed, this]

/-- States differing only outside the registry fields share the invariant. -/
theorem peerInv_congr {s s' : VCState} (hpeers : s'.peers = s.peers)
    (hpcs : s'.pcs = s.pcs) (hnext : s'.nextPc = s.nextPc) (h : PeerInv s) :
    PeerInv s' := by
  unfold PeerInv
  rw [hpeers, hpcs, hnext]
  exact h

/-! ## Invariant preservation -/

theorem modifyPc_const_self {s : VCState} {pcId : ℕ} {pc : PCState}
    (hw : alookup s.pcs pcId = some pc) : modifyPc s pcId (fun _ => pc) = s := by
  unfold modifyPc
  rw [hw]
  simp [aset_self_of_alookup hw]

theorem peerInv_modifyPc {s : VCState} (pcId : ℕ) (f : PCState → PCState)
    (hF : ∀ pc, (f pc).forPeer = pc.forPeer)
    (hC : ∀ pc, (f pc).closed = pc.closed)
    (h : PeerInv s) : PeerInv (modifyPc s pcId f) := by
  obtain ⟨hp, hc, hfr, hro, hor⟩ := h
  unfold modifyPc
  cases hv : alookup s.pcs pcId with
  | none => exact ⟨hp, hc, hfr, hro, hor⟩
  | some pc =>
    have hmem : pcId ∈ s.pcs.map Prod.fst :=
      mem_keys_of_alookup_isSome (by simp [hv])
    have hkeys : (aset s.pcs pcId (f pc)).map Prod.fst = s.pcs.map Prod.fst :=
      keys_aset_of_mem (f pc) hmem
    refine ⟨hp, by rw [hkeys]; exact hc, ?_, ?_, ?_⟩
    · intro e he
      rcases aset_mem_cases he with he' | he'
      · subst he'
        exact hfr (pcId, pc) (mem_of_alookup_eq_some hv)
      · exact hfr e he'
    · intro e he
      obtain ⟨pc', hpc', hfor, hcl⟩ := hro e he
      by_cases hid : e.2 = pcId
      · rw [hid] at hpc'
        rw [hv] at hpc'
        injection hpc' with hpc'
        subst hpc'
        refine ⟨f pc, ?_, ?_, ?_⟩
        · rw [hid]
          exact alookup_aset_self ..
        · rw [hF pc, hfor]
        · rw [hC pc, hcl]
      · exact ⟨pc', by rwa [alookup_aset_ne _ _ hid], hfor, hcl⟩
    · intro e he hcl
      rcases aset_mem_cases he with he' | he'
      · subst he'
        simp only [hF pc]
        simp only [hC pc] at hcl
        exact hor (pcId, pc) (mem_of_alookup_eq_some hv) hcl
      · exact hor e he' hcl

theorem alookup_pcs_nextPc {s : VCState} (h : PeerInv s) :
    alookup s.pcs s.nextPc = none := by
  cases hv : alookup s.pcs s.nextPc with
  | none => rfl
  | some pc =>
    have := h.2.2.1 (s.nextPc, pc) (mem_of_alookup_eq_some hv)
    exact absurd this (lt_irrefl _)

theorem peerInv_registerPC {s : VCState} (pid : String)
    (hnew : alookup s.peers pid = none) (h : PeerInv s) :
    PeerInv (registerPC s pid).1 := by
  obtain ⟨hp, hc, hfr, hro, hor⟩ := h
  have hpid : pid ∉ s.peers.map Prod.fst := by
    intro hmem
    have hsome := alookup_isSome_of_mem_keys hmem
    rw [hnew] at hsome
    simp at hsome
  have hnp : s.nextPc ∉ s.pcs.map Prod.fst := by
    intro hmem
    obtain ⟨e, he, hfst⟩ := List.mem_map.mp hmem
    exact absurd (hfst ▸ hfr e he) (lt_irrefl _)
  refine ⟨?_, ?_, ?_, ?_, ?_⟩
  · simp only [registerPC, List.map_append, List.map_cons, List.map_nil]
    simp [List.nodup_append, hp, hpid]
  · simp only [registerPC, List.map_append, List.map_cons, List.map_nil]
    simp [List.nodup_append, hc, hnp]
  · intro e he
    simp only [registerPC, List.mem_append, List.mem_singleton] at he
    rcases he with he | he
    · exact Nat.lt_succ_of_lt (hfr e he)
    · subst he
      exact Nat.lt_succ_self _
  · intro e he
    simp only [registerPC, List.mem_append, List.mem_singleton] at he
    rcases he with he | he
    · obtain ⟨pc', hpc', hfor, hcl⟩ := hro e he
      exact ⟨pc', alookup_append_left hpc', hfor, hcl⟩
    · subst he
      refine ⟨newPC pid, ?_, rfl, rfl⟩
      exact alookup_append_singleton_self _ (alookup_eq_none_of_not_mem_keys hnp)
  · intro e he hcl
    simp only [registerPC, List.mem_append, List.mem_singleton] at he
    rcases he with he | he
    · have hreg := hor e he hcl
      have hne : e.2.forPeer ≠ pid := by
        intro heq
        rw [heq, hnew] at hreg
        cases hreg
      simp only [registerPC]
      rw [alookup_append_singleton_ne _ hne]
      exact hreg
    · subst he
      simp only [registerPC, newPC]
      exact alookup_append_singleton_self _ hnew

theorem peerInv_connectToPeer {s : VCState} (pid : String) (h : PeerInv s) :
    PeerInv (connectToPeer s pid).1 := by
  unfold connectToPeer
  split
  · exact h
  next hg =>
    push_neg at hg
    have hnone : alookup s.peers pid = none :=
      Option.not_isSome_iff_eq_none.mp (by simpa using hg.2)
    exact peerInv_modifyPc _ setLocalOffer (fun pc => rfl) (fun pc => rfl)
      (peerInv_registerPC pid hnone h)

theorem peerInv_handleSignal {s : VCState} (env : Envelope) (h : PeerInv s) :
    PeerInv (handleSignal s env).1 := by
  unfold handleSignal
  split
  · exact h
  split
  · split
    next pcId hv =>
      exact peerInv_modifyPc pcId _ (fun pc => rfl) (fun pc => rfl) h
    next hv =>
      exact peerInv_modifyPc _ _ (fun pc => rfl) (fun pc => rfl)
        (peerInv_registerPC env.fromId hv h)
  split
  · split
    next pcId hv =>
      split
      next pc hw =>
        split
        · exact peerInv_modifyPc pcId setRemoteAnswer (fun pc => rfl) (fun pc => rfl) h
        · exact h
      next hw => exact h
    next hv => exact h
  split
  · split
    next pcId hv =>
      split
      next pc hw =>
        split
        next pc' hic =>
          have hpc : pc' = pc := by
            simp only [addIceCandidate] at hic
            by_cases hr : pc.remoteDescSet
            · rw [if_pos hr] at hic
              injection hic with h'
              exact h'.symm
            · rw [if_neg hr] at hic
              cases hic
          subst hpc
          simpa [modifyPc_const_self hw] using h
        next e hic => exact h
      next hw => exact h
    next hv => exact h
  · exact h

theorem mem_aerase_ne_of_nodup {α β : Type} [DecidableEq α]
    {l : List (α × β)} {a : α} {e : α × β}
    (hnd : (l.map Prod.fst).Nodup) (he : e ∈ aerase l a) : e.1 ≠ a := by
  intro heq
  have hmem : a ∈ (aerase l a).map Prod.fst := List.mem_map.mpr ⟨e, he, heq⟩
  have hsome := alookup_isSome_of_mem_keys hmem
  rw [alookup_aerase_self_of_nodup hnd] at hsome
  simp at hsome

theorem mem_of_mem_aerase {α β : Type} [DecidableEq α]
    {l : List (α × β)} {a : α} {e : α × β} (he : e ∈ aerase l a) : e ∈ l :=
  (aerase_sublist l a).mem he

theorem peerInv_disconnectPeer {s : VCState} (pid : String) (h : PeerInv s) :
    PeerInv (disconnectPeer s pid).1 := by
  obtain ⟨hp, hc, hfr, hro, hor⟩ := h
  unfold disconnectPeer
  split
  next pcId hv =>
    obtain ⟨pc0, hpc00, hfor00, hcl0⟩ := hro (pid, pcId) (mem_of_alookup_eq_some hv)
    have hpc0 : alookup s.pcs pcId = some pc0 := hpc00
    have hfor0 : pc0.forPeer = pid := hfor00
    split
    next pc hw =>
      have hpceq : pc0 = pc := by
        rw [hpc0] at hw
        injection hw
      subst hpceq
      have hknd : ((aset s.pcs pcId (closePC pc0)).map Prod.fst).Nodup :=
        keys_nodup_aset _ hc
      refine ⟨keys_nodup_aerase _ _ hp, hknd, ?_, ?_, ?_⟩
      · intro e he
        rcases aset_mem_cases he with he' | he'
        · subst he'
          exact hfr (pcId, pc0) (mem_of_alookup_eq_some hpc0)
        · exact hfr e he'
      · intro e he
        have hne : e.1 ≠ pid := mem_aerase_ne_of_nodup hp he
        have hmem : e ∈ s.peers := mem_of_mem_aerase he
        obtain ⟨pc', hpc', hfor', hcl'⟩ := hro e hmem
        have hneid : e.2 ≠ pcId := by
          intro heq
          rw [heq, hpc0] at hpc'
          injection hpc' with hpc'
          exact hne (by rw [← hfor', ← hpc', hfor0])
        exact ⟨pc', by rwa [alookup_aset_ne _ _ hneid], hfor', hcl'⟩
      · intro e he hcl
        obtain ⟨k, v⟩ := e
        rcases aset_mem_cases he with he' | he'
        · injection he' with hk hv'
          rw [hv'] at hcl
          simp [closePC] at hcl
        · simp only at hcl ⊢
          have hreg := hor (k, v) he' hcl
          by_cases hfp : v.forPeer = pid
          · exfalso
            rw [hfp, hv] at hreg
            injection hreg with hreg
            have hk : k = pcId := by simpa using hreg.symm
            subst hk
            have hkv2 : alookup (aset s.pcs k (closePC pc0)) k = some v :=
              alookup_eq_some_of_mem_nodup hknd he
            rw [alookup_aset_self] at hkv2
            injection hkv2 with hkv2
            rw [← hkv2] at hcl
            simp [closePC] at hcl
          · rw [alookup_aerase_ne _ hfp]
            exact hreg
    next hw =>
      exfalso
      rw [hpc0] at hw
      cases hw
  next hv =>
    exact peerInv_congr rfl rfl rfl ⟨hp, hc, hfr, hro, hor⟩

theorem closePC_idem (pc : PCState) : closePC (closePC pc) = closePC pc := rfl

theorem peerInv_disable {s : VCState} (h : PeerInv s) : PeerInv (disable s) := by
  obtain ⟨hp, hc, hfr, hro, hor⟩ := h
  have hknd : ((bumpAll closePC (s.peers.map Prod.snd) s.pcs).map Prod.fst).Nodup := by
    rw [keys_bumpAll]
    exact hc
  refine ⟨by simp [disable], by simpa [disable] using hknd, ?_, by simp [disable], ?_⟩
  · intro e he
    simp only [disable] at he ⊢
    have hk : e.1 ∈ (bumpAll closePC (s.peers.map Prod.snd) s.pcs).map Prod.fst :=
      List.mem_map.mpr ⟨e, he, rfl⟩
    rw [keys_bumpAll] at hk
    obtain ⟨e', he', hfst⟩ := List.mem_map.mp hk
    exact hfst ▸ hfr e' he'
  · intro e he hcl
    exfalso
    simp only [disable] at he
    obtain ⟨k, v⟩ := e
    have hkv : alookup (bumpAll closePC (s.peers.map Prod.snd) s.pcs) k = some v :=
      alookup_eq_some_of_mem_nodup hknd he
    rw [alookup_bumpAll closePC closePC_idem] at hkv
    simp only at hcl
    by_cases hmem : k ∈ s.peers.map Prod.snd
    · rw [if_pos hmem] at hkv
      cases hq : alookup s.pcs k with
      | none => rw [hq] at hkv; cases hkv
      | some q =>
        rw [hq] at hkv
        injection hkv with hkv
        rw [← hkv] at hcl
        simp [closePC] at hcl
    · rw [if_neg hmem] at hkv
      have hreg := hor (k, v) (mem_of_alookup_eq_some hkv) hcl
      exact hmem (List.mem_map.mpr ⟨(v.forPeer, k), mem_of_alookup_eq_some hreg, rfl⟩)

theorem peerInv_connectStep (acc : VCState × List Event) (pid : String)
    (h : PeerInv acc.1) : PeerInv (connectStep acc pid).1 := by
  unfold connectStep
  split
  · exact h
  split
  · exact h
  · exact peerInv_connectToPeer pid h

theorem peerInv_foldl_connectStep (ns : List String) (acc : VCState × List Event)
    (h : PeerInv acc.1) : PeerInv (ns.foldl connectStep acc).1 := by
  induction ns generalizing acc with
  | nil => exact h
  | cons p t ih => exact ih _ (peerInv_connectStep acc p h)

theorem peerInv_disconnectStep (nearby : List String) (acc : VCState × List Event)
    (pid : String) (h : PeerInv acc.1) : PeerInv (disconnectStep nearby acc pid).1 := by
  unfold disconnectStep
  split
  · exact h
  · exact peerInv_disconnectPeer pid h

theorem peerInv_foldl_disconnectStep (nearby ks : List String)
    (acc : VCState × List Event) (h : PeerInv acc.1) :
    PeerInv (ks.foldl (disconnectStep nearby) acc).1 := by
  induction ks generalizing acc with
  | nil => exact h
  | cons p t ih => exact ih _ (peerInv_disconnectStep nearby acc p h)

theorem peerInv_updateNearbyPeers {s : VCState} (ns : List String) (r : ℚ)
    (h : PeerInv s) : PeerInv (updateNearbyPeers s ns r).1 := by
  unfold updateNearbyPeers
  split
  · exact h
  · exact peerInv_foldl_disconnectStep ns _ _ (peerInv_foldl_connectStep ns (s, []) h)

theorem peerInv_init {s : VCState} (mic : Option ℕ) (h : PeerInv s) :
    PeerInv (init s mic).2.1 := by
  cases mic with
  | none => exact h
  | some n => exact peerInv_congr rfl rfl rfl h

theorem peerInv_setPTT {s : VCState} (active : Bool) (h : PeerInv s) :
    PeerInv (setPTT s active) :=
  peerInv_congr rfl rfl rfl h

theorem peerInv_vadFrame {s : VCState} (bytes : List ℕ) (h : PeerInv s) :
    PeerInv (vadFrame s bytes).1 := by
  unfold vadFrame
  split
  · exact h
  · exact peerInv_congr rfl rfl rfl h

theorem peerInv_stepOp {s : VCState} (op : Op) (h : PeerInv s) :
    PeerInv (stepOp s op) := by
  cases op with
  | initOp mic => exact peerInv_init mic h
  | connect pid => exact peerInv_connectToPeer pid h
  | signal env => exact peerInv_handleSignal env h
  | disconnect pid => exact peerInv_disconnectPeer pid h
  | nearby ids range => exact peerInv_updateNearbyPeers ids range h
  | disableOp => exact peerInv_disable h
  | ptt active => exact peerInv_setPTT active h
  | frame bytes => exact peerInv_vadFrame bytes h

theorem peerInv_runOps (ops : List Op) (s : VCState) (h : PeerInv s) :
    PeerInv (runOps s ops) := by
  induction ops generalizing s with
  | nil => exact h
  | cons op t ih => exact ih _ (peerInv_stepOp op h)

theorem peerInv_mkVoiceChat (st : Settings) : PeerInv (mkVoiceChat st) := by
  refine ⟨?_, ?_, ?_, ?_, ?_⟩ <;> simp [mkVoiceChat]

/-! ## Properties of `connectToPeer` and the offer path (claim C1) -/

theorem modifyPc_peers (s : VCState) (pcId : ℕ) (f : PCState → PCState) :
    (modifyPc s pcId f).peers = s.peers := by
  unfold modifyPc
  split <;> rfl

theorem modifyPc_keys (s : VCState) (pcId : ℕ) (f : PCState → PCState) :
    (modifyPc s pcId f).pcs.map Prod.fst = s.pcs.map Prod.fst := by
  unfold modifyPc
  split
  next pc hv =>
    exact keys_aset_of_mem (f pc) (mem_keys_of_alookup_isSome (by simp [hv]))
  · rfl

theorem modifyPc_nextPc (s : VCState) (pcId : ℕ) (f : PCState → PCState) :
    (modifyPc s pcId f).nextPc = s.nextPc := by
  unfold modifyPc
  split <;> rfl

/-- Shape of the trace of a single `connectToPeer` call. -/
theorem connectToPeer_trace (s : VCState) (pid : String) :
    (connectToPeer s pid).2.1 = [] ∨
    ∃ n, (connectToPeer s pid).2.1 =
      Event.registered pid n ::
        (if s.signalSender then [Event.sentSignal pid "offer"] else []) := by
  unfold connectToPeer
  split
  · exact Or.inl rfl
  · exact Or.inr ⟨(registerPC s pid).2, rfl⟩

/-- Within a single `connectToPeer` call, any offer handed to the signal
sender is preceded in the trace by the registry insertion. -/
theorem connectToPeer_registered_before_offer (s : VCState) (pid : String)
    (i : ℕ)
    (hget : ((connectToPeer s pid).2.1).get? i = some (Event.sentSignal pid "offer")) :
    ∃ j, j < i ∧
      ∃ n, ((connectToPeer s pid).2.1).get? j = some (Event.registered pid n) := by
  rcases connectToPeer_trace s pid with h | ⟨n, h⟩
  · rw [h] at hget
    simp at hget
  · rw [h] at hget ⊢
    by_cases hs : s.signalSender = true
    · rw [hs, if_pos rfl] at hget ⊢
      match i, hget with
      | 0, hget => simp [List.get?] at hget
      | 1, hget => exact ⟨0, by omega, n, rfl⟩
      | (k + 2), hget => simp [List.get?] at hget
    · simp only [Bool.not_eq_true] at hs
      rw [hs] at hget
      simp only [Bool.false_eq_true, if_false] at hget
      match i, hget with
      | 0, hget => simp [List.get?] at hget
      | (k + 1), hget => simp [List.get?] at hget

/-- An inbound offer for an already-registered peer reuses the existing
connection: the registry is unchanged, no connection is created, and no
registration event is emitted. -/
theorem handleSignal_offer_reuse (s : VCState) (env : Envelope) (pcId : ℕ)
    (hen : s.enabled = true) (hty : env.signalType = "offer")
    (hv : alookup s.peers env.fromId = some pcId) :
    (handleSignal s env).1.peers = s.peers ∧
    (handleSignal s env).1.pcs.map Prod.fst = s.pcs.map Prod.fst ∧
    (handleSignal s env).1.nextPc = s.nextPc ∧
    ∀ e ∈ (handleSignal s env).2, ∀ q n, e ≠ Event.registered q n := by
  unfold handleSignal
  simp only [hen, hty, hv, not_true, Bool.true_eq_false, if_false, if_true]
  refine ⟨modifyPc_peers .., modifyPc_keys .., modifyPc_nextPc .., ?_⟩
  intro e he q n
  by_cases hs : s.signalSender = true
  · simp only [hs, if_true, List.mem_singleton] at he
    simp [he]
  · simp only [Bool.not_eq_true] at hs
    rw [hs] at he
    simp at he

/-! ## Concrete fixtures for witnesses and counterexamples -/

/-- A settings object: VAD gating mode, no explicit sensitivity, default
volume. -/
def exSettings : Settings :=
  { ptt := false, sensitivity := none, vad := none, volume := 7/10 }

/-- The connection object of the fixture `sEx`: stable and answered. -/
def pcStable : PCState :=
  { forPeer := "b", sigState := SigState.stable
    remoteDescSet := true, closed := false }

/-- An enabled voice-chat state with one registered peer `"b"` (connection
id 0, answered and stable), a gain node and audio element for `"b"`, a
one-track capture stream, and a configured signal sender. -/
def sEx : VCState :=
  { settings := exSettings, enabled := true, localStream := some [0]
    audioContext := true, analyser := true
    peers := [("b", 0)], gains := ["b"], audioElements := ["b"]
    isSpeaking := false, isPTTActive := false, vadThreshold := 1/50
    userId := "me", signalSender := true
    pcs := [(0, pcStable)]
    tracks := [(0, { enabled := true, stopped := false })]
    nextPc := 1, nextTrack := 1 }

/-- An inbound offer envelope from the registered peer `"b"`. -/
def exOffer : Envelope :=
  { fromId := "b", signalType := "offer", data := { sdp := some "v=0", candidate := none } }

/-! ## Claim C1 -/

/-- C1: for every interleaved call sequence on a `VoiceChat` instance, the
registry holds at most one non-closed `RTCPeerConnection` per peer id at
every point; within `connectToPeer` the registry insertion precedes the
offer being handed to the signal sender; and an inbound offer for an
already-registered peer reuses the existing connection (registry unchanged,
no connection created, no registration event). -/
theorem C1_at_most_one_connection :
    (∀ (st : Settings) (ops : List Op) (pid : String),
      countNonClosed (runOps (mkVoiceChat st) ops) pid ≤ 1) ∧
    (∀ (s : VCState) (pid : String) (i : ℕ),
      ((connectToPeer s pid).2.1).get? i = some (Event.sentSignal pid "offer") →
      ∃ j, j < i ∧
        ∃ n, ((connectToPeer s pid).2.1).get? j = some (Event.registered pid n)) ∧
    (∀ (s : VCState) (env : Envelope) (pcId : ℕ),
      s.enabled = true → env.signalType = "offer" →
      alookup s.peers env.fromId = some pcId →
      (handleSignal s env).1.peers = s.peers ∧
      (handleSignal s env).1.pcs.map Prod.fst = s.pcs.map Prod.fst ∧
      (handleSignal s env).1.nextPc = s.nextPc ∧
      ∀ e ∈ (handleSignal s env).2, ∀ q n, e ≠ Event.registered q n) := by
  refine ⟨?_, ?_, ?_⟩
  · intro st ops pid
    exact countNonClosed_le_one (peerInv_runOps ops _ (peerInv_mkVoiceChat st)) pid
  · intro s pid i hget
    exact connectToPeer_registered_before_offer s pid i hget
  · intro s env pcId hen hty hv
    exact handleSignal_offer_reuse s env pcId hen hty hv

/-- C1 witness: the invariant bound evaluated on a concrete duplicate-wave
call sequence, the trace-order property at the concrete offer-sending call
`connectToPeer sEx "a"`, and the reuse property at a concrete duplicate
inbound offer. -/
theorem C1_at_most_one_connection_witness :
    (countNonClosed
      (runOps (mkVoiceChat exSettings)
        [Op.connect "a", Op.signal exOffer, Op.signal exOffer, Op.connect "a"]) "a" ≤ 1) ∧
    (∃ j, j < 1 ∧
      ∃ n, ((connectToPeer sEx "a").2.1).get? j = some (Event.registered "a" n)) ∧
    ((handleSignal sEx exOffer).1.peers = sEx.peers ∧
      (handleSignal sEx exOffer).1.pcs.map Prod.fst = sEx.pcs.map Prod.fst ∧
      (handleSignal sEx exOffer).1.nextPc = sEx.nextPc ∧
      ∀ e ∈ (handleSignal sEx exOffer).2, ∀ q n, e ≠ Event.registered q n) :=
  ⟨C1_at_most_one_connection.1 exSettings
      [Op.connect "a", Op.signal exOffer, Op.signal exOffer, Op.connect "a"] "a",
    C1_at_most_one_connection.2.1 sEx "a" 1 (by decide),
    C1_at_most_one_connection.2.2 sEx exOffer 0 rfl rfl (by decide)⟩

/-! ## Claims C10, C7, C3 -/

/-- C10: when `enabled` is false, `handleSignal` returns immediately for
every envelope: the state (including the `peers`, `gains`, `audioElements`
maps and the connection heap) is unchanged and no event — in particular no
answer or ice envelope and no registration — is produced. -/
theorem C10_handleSignal_disabled_noop (s : VCState) (env : Envelope)
    (h : s.enabled = false) : handleSignal s env = (s, []) := by
  unfold handleSignal
  rw [h]
  simp

/-- C10 witness: a disabled instance drops a concrete inbound offer. -/
theorem C10_handleSignal_disabled_noop_witness :
    handleSignal (mkVoiceChat exSettings) exOffer = (mkVoiceChat exSettings, []) :=
  C10_handleSignal_disabled_noop (mkVoiceChat exSettings) exOffer rfl

/-- C7: `init()` returns `true` on success; when microphone acquisition
fails it returns `false` and performs no side effect — the state is exactly
unchanged (so `enabled` stays false, no capture stream is retained) and no
VAD loop is started (empty event trace, no `vadStarted`). -/
theorem C7_init_reports_failure :
    (∀ s : VCState, init s none = (false, s, [])) ∧
    (∀ (s : VCState) (n : ℕ), (init s (some n)).1 = true ∧
      (init s (some n)).2.2 = [Event.vadStarted]) :=
  ⟨fun _ => rfl, fun _ _ => ⟨rfl, rfl⟩⟩

/-- The connection object of the fixture `sExOff`: an offer has been sent
(`have-local-offer`) and no remote description applied yet. -/
def pcOff : PCState :=
  { forPeer := "b", sigState := SigState.haveLocalOffer
    remoteDescSet := false, closed := false }

/-- Like `sEx` but mid-negotiation with `"b"`: the local offer is applied
and no answer has arrived yet. -/
def sExOff : VCState :=
  { sEx with pcs := [(0, pcOff)] }

/-- An inbound answer envelope from `"b"`. -/
def exAnswer : Envelope :=
  { fromId := "b", signalType := "answer", data := { sdp := some "v=0", candidate := none } }

/-- An inbound answer envelope from an unknown peer `"z"`. -/
def exAnswerUnknown : Envelope :=
  { fromId := "z", signalType := "answer", data := { sdp := some "v=0", candidate := none } }

/-- An inbound ice envelope from `"b"` carrying a candidate. -/
def exIce : Envelope :=
  { fromId := "b", signalType := "ice", data := { sdp := none, candidate := some "cand" } }

theorem alookup_modifyPc_self {s : VCState} {pcId : ℕ} {pc : PCState}
    (f : PCState → PCState) (hw : alookup s.pcs pcId = some pc) :
    alookup (modifyPc s pcId f).pcs pcId = some (f pc) := by
  unfold modifyPc
  rw [hw]
  exact alookup_aset_self ..

/-- C3: an answer is applied only when a connection exists for the sender
and its signaling state is not stable (a duplicate or late answer to a
stable connection is silently ignored); an answer or ice envelope from an
unknown peer is dropped with no state change and no output; and a failing
`addIceCandidate` (candidate before remote description) is caught: the call
returns normally with the state unchanged and only a logged warning. -/
theorem C3_stale_signal_handling :
    (∀ (s : VCState) (env : Envelope) (pcId : ℕ) (pc : PCState),
      s.enabled = true → env.signalType = "answer" →
      alookup s.peers env.fromId = some pcId → alookup s.pcs pcId = some pc →
      (pc.sigState ≠ SigState.stable →
        handleSignal s env = (modifyPc s pcId setRemoteAnswer, []) ∧
        alookup (handleSignal s env).1.pcs pcId = some (setRemoteAnswer pc)) ∧
      (pc.sigState = SigState.stable → handleSignal s env = (s, []))) ∧
    (∀ (s : VCState) (env : Envelope),
      s.enabled = true → (env.signalType = "answer" ∨ env.signalType = "ice") →
      alookup s.peers env.fromId = none → handleSignal s env = (s, [])) ∧
    (∀ (s : VCState) (env : Envelope) (pcId : ℕ) (pc : PCState),
      s.enabled = true → env.signalType = "ice" →
      env.data.candidate.isSome = true →
      alookup s.peers env.fromId = some pcId → alookup s.pcs pcId = some pc →
      pc.remoteDescSet = false →
      handleSignal s env = (s, [Event.warnIce])) := by
  refine ⟨?_, ?_, ?_⟩
  · intro s env pcId pc hen hty hv hw
    constructor
    · intro hst
      constructor
      · unfold handleSignal
        rw [hty]
        simp [hen, hv, hw, hst]
      · have heq : handleSignal s env = (modifyPc s pcId setRemoteAnswer, []) := by
          unfold handleSignal
          rw [hty]
          simp [hen, hv, hw, hst]
        rw [heq]
        exact alookup_modifyPc_self setRemoteAnswer hw
    · intro hst
      unfold handleSignal
      rw [hty]
      simp [hen, hv, hw, hst]
  · intro s env hen hty hv
    unfold handleSignal
    rcases hty with hty | hty <;> rw [hty] <;> simp [hen, hv]
  · intro s env pcId pc hen hty hcand hv hw hrd
    unfold handleSignal
    rw [hty]
    simp [hen, hv, hw, hcand, addIceCandidate, hrd]

/-- C3 witness: a concrete in-flight answer is applied, a duplicate answer
to the stable fixture is ignored, an answer from an unknown peer is
dropped, and an early ice candidate produces only the logged warning. -/
theorem C3_stale_signal_handling_witness :
    (handleSignal sExOff exAnswer = (modifyPc sExOff 0 setRemoteAnswer, []) ∧
      alookup (handleSignal sExOff exAnswer).1.pcs 0 = some (setRemoteAnswer pcOff)) ∧
    handleSignal sEx exAnswer = (sEx, []) ∧
    handleSignal sEx exAnswerUnknown = (sEx, []) ∧
    handleSignal sExOff exIce = (sExOff, [Event.warnIce]) :=
  ⟨(C3_stale_signal_handling.1 sExOff exAnswer 0 pcOff rfl rfl (by decide)
      (by decide)).1 (by decide),
    (C3_stale_signal_handling.1 sEx exAnswer 0
      { forPeer := "b", sigState := SigState.stable, remoteDescSet := true, closed := false }
      rfl rfl (by decide) (by decide)).2 rfl,
    C3_stale_signal_handling.2.1 sEx exAnswerUnknown rfl (Or.inl rfl) (by decide),
    C3_stale_signal_handling.2.2 sExOff exIce 0 pcOff rfl rfl rfl (by decide)
      (by decide) rfl⟩

/-! ## Idempotence of `updateNearbyPeers` (claim C2) -/

/-- Registry membership. -/
def HasPeer (s : VCState) (q : String) : Prop :=
  (alookup s.peers q).isSome = true

theorem aerase_eq_of_alookup_none {α β : Type} [DecidableEq α]
    {l : List (α × β)} {a : α} (h : alookup l a = none) : aerase l a = l := by
  induction l with
  | nil => rfl
  | cons e t ih =>
    obtain ⟨k, v⟩ := e
    by_cases hk : k = a
    · simp [alookup, hk] at h
    · simp only [alookup, hk, if_false] at h
      simp [aerase, hk, ih h]

theorem modifyPc_enabled (s : VCState) (pcId : ℕ) (f : PCState → PCState) :
    (modifyPc s pcId f).enabled = s.enabled := by
  unfold modifyPc
  split <;> rfl

theorem modifyPc_userId (s : VCState) (pcId : ℕ) (f : PCState → PCState) :
    (modifyPc s pcId f).userId = s.userId := by
  unfold modifyPc
  split <;> rfl

theorem connectToPeer_enabled (s : VCState) (pid : String) :
    (connectToPeer s pid).1.enabled = s.enabled := by
  unfold connectToPeer
  split
  · rfl
  · rw [modifyPc_enabled]
    rfl

theorem connectToPeer_userId (s : VCState) (pid : String) :
    (connectToPeer s pid).1.userId = s.userId := by
  unfold connectToPeer
  split
  · rfl
  · rw [modifyPc_userId]
    rfl

theorem disconnectPeer_peers (s : VCState) (pid : String) :
    (disconnectPeer s pid).1.peers = aerase s.peers pid := by
  unfold disconnectPeer
  split
  next pcId hv =>
    split
    · rfl
    · rfl
  next hv =>
    rw [aerase_eq_of_alookup_none hv]

theorem disconnectPeer_enabled (s : VCState) (pid : String) :
    (disconnectPeer s pid).1.enabled = s.enabled := by
  unfold disconnectPeer
  split
  next pcId hv =>
    split
    · rfl
    · rfl
  · rfl

theorem disconnectPeer_userId (s : VCState) (pid : String) :
    (disconnectPeer s pid).1.userId = s.userId := by
  unfold disconnectPeer
  split
  next pcId hv =>
    split
    · rfl
    · rfl
  · rfl

theorem connectStep_enabled (acc : VCState × List Event) (pid : String) :
    (connectStep acc pid).1.enabled = acc.1.enabled := by
  unfold connectStep
  split
  · rfl
  split
  · rfl
  · rw [connectToPeer_enabled]

theorem connectStep_userId (acc : VCState × List Event) (pid : String) :
    (connectStep acc pid).1.userId = acc.1.userId := by
  unfold connectStep
  split
  · rfl
  split
  · rfl
  · rw [connectToPeer_userId]

theorem disconnectStep_enabled (S : List String) (acc : VCState × List Event)
    (pid : String) : (disconnectStep S acc pid).1.enabled = acc.1.enabled := by
  unfold disconnectStep
  split
  · rfl
  · rw [disconnectPeer_enabled]

theorem disconnectStep_userId (S : List String) (acc : VCState × List Event)
    (pid : String) : (disconnectStep S acc pid).1.userId = acc.1.userId := by
  unfold disconnectStep
  split
  · rfl
  · rw [disconnectPeer_userId]

theorem foldl_connectStep_enabled (ns : List String) (acc : VCState × List Event) :
    (ns.foldl connectStep acc).1.enabled = acc.1.enabled := by
  induction ns generalizing acc with
  | nil => rfl
  | cons p t ih => rw [List.foldl_cons, ih, connectStep_enabled]

theorem foldl_connectStep_userId (ns : List String) (acc : VCState × List Event) :
    (ns.foldl connectStep acc).1.userId = acc.1.userId := by
  induction ns generalizing acc with
  | nil => rfl
  | cons p t ih => rw [List.foldl_cons, ih, connectStep_userId]

theorem foldl_disconnectStep_enabled (ks S : List String)
    (acc : VCState × List Event) :
    (ks.foldl (disconnectStep S) acc).1.enabled = acc.1.enabled := by
  induction ks generalizing acc with
  | nil => rfl
  | cons p t ih => rw [List.foldl_cons, ih, disconnectStep_enabled]

theorem foldl_disconnectStep_userId (ks S : List String)
    (acc : VCState × List Event) :
    (ks.foldl (disconnectStep S) acc).1.userId = acc.1.userId := by
  induction ks generalizing acc with
  | nil => rfl
  | cons p t ih => rw [List.foldl_cons, ih, disconnectStep_userId]

theorem connectToPeer_peers_of_new (s : VCState) (pid : String)
    (hen : s.enabled = true) (hnot : alookup s.peers pid = none) :
    (connectToPeer s pid).1.peers = s.peers ++ [(pid, s.nextPc)] := by
  unfold connectToPeer
  rw [if_neg (by simp [hen, hnot])]
  rw [modifyPc_peers]
  rfl

/-- Effect of the connect loop on registry membership: afterwards exactly
the old members plus the nearby non-self ids are registered. -/
theorem foldl_connectStep_hasPeer (ns : List String) (acc : VCState × List Event)
    (q : String) (hen : acc.1.enabled = true) :
    (HasPeer (ns.foldl connectStep acc).1 q ↔
      HasPeer acc.1 q ∨ (q ∈ ns ∧ q ≠ acc.1.userId)) := by
  induction ns generalizing acc with
  | nil => simp
  | cons p t ih =>
    rw [List.foldl_cons]
    by_cases hp : p = acc.1.userId
    · have hstep : connectStep acc p = acc := by
        unfold connectStep
        rw [if_pos hp]
      rw [hstep, ih acc hen]
      constructor
      · rintro (h | ⟨hq, hne⟩)
        · exact Or.inl h
        · exact Or.inr ⟨List.mem_cons_of_mem _ hq, hne⟩
      · rintro (h | ⟨hq, hne⟩)
        · exact Or.inl h
        · rcases List.mem_cons.mp hq with rfl | hq
          · exact absurd hp hne
          · exact Or.inr ⟨hq, hne⟩
    · by_cases hh : (alookup acc.1.peers p).isSome = true
      · have hstep : connectStep acc p = acc := by
          unfold connectStep
          rw [if_neg hp, if_pos hh]
        rw [hstep, ih acc hen]
        constructor
        · rintro (h | ⟨hq, hne⟩)
          · exact Or.inl h
          · exact Or.inr ⟨List.mem_cons_of_mem _ hq, hne⟩
        · rintro (h | ⟨hq, hne⟩)
          · exact Or.inl h
          · rcases List.mem_cons.mp hq with rfl | hq
            · exact Or.inl hh
            · exact Or.inr ⟨hq, hne⟩
      · have hnone : alookup acc.1.peers p = none := by
          cases hv : alookup acc.1.peers p with
          | none => rfl
          | some x => exact absurd (by simp [hv]) hh
        have hcs : (connectStep acc p).1 = (connectToPeer acc.1 p).1 := by
          unfold connectStep
          rw [if_neg hp, if_neg hh]
        have hen' : (connectStep acc p).1.enabled = true := by
          rw [connectStep_enabled]
          exact hen
        rw [ih (connectStep acc p) hen', hcs, connectToPeer_userId]
        have hmem : HasPeer (connectToPeer acc.1 p).1 q ↔ HasPeer acc.1 q ∨ q = p := by
          unfold HasPeer
          rw [connectToPeer_peers_of_new acc.1 p hen hnone]
          by_cases hq : q = p
          · subst hq
            simp [alookup_append_singleton_self _ hnone]
          · rw [alookup_append_singleton_ne _ hq]
            simp [hq]
        rw [hmem]
        constructor
        · rintro ((h | rfl) | ⟨hq, hne⟩)
          · exact Or.inl h
          · exact Or.inr ⟨List.mem_cons_self _ _, hp⟩
          · exact Or.inr ⟨List.mem_cons_of_mem _ hq, hne⟩
        · rintro (h | ⟨hq, hne⟩)
          · exact Or.inl (Or.inl h)
          · rcases List.mem_cons.mp hq with rfl | hq
            · exact Or.inl (Or.inr rfl)
            · exact Or.inr ⟨hq, hne⟩

theorem connectStep_peers_nodup (acc : VCState × List Event) (pid : String)
    (hnd : (acc.1.peers.map Prod.fst).Nodup) :
    ((connectStep acc pid).1.peers.map Prod.fst).Nodup := by
  unfold connectStep
  split
  · exact hnd
  split
  · exact hnd
  next hp hh =>
    have hnone : alookup acc.1.peers pid = none := by
      simpa using hh
    by_cases hen : acc.1.enabled = true
    · rw [connectToPeer_peers_of_new acc.1 pid hen hnone]
      have hpid : pid ∉ acc.1.peers.map Prod.fst := by
        intro hmem
        have hsome := alookup_isSome_of_mem_keys hmem
        rw [hnone] at hsome
        cases hsome
      simp [List.nodup_append, hnd, hpid]
    · have hc : connectToPeer acc.1 pid = (acc.1, [], none) := by
        unfold connectToPeer
        rw [if_pos (Or.inl (by simpa using hen))]
      rw [hc]
      exact hnd

theorem foldl_connectStep_peers_nodup (ns : List String)
    (acc : VCState × List Event) (hnd : (acc.1.peers.map Prod.fst).Nodup) :
    (((ns.foldl connectStep acc).1.peers.map Prod.fst)).Nodup := by
  induction ns generalizing acc with
  | nil => exact hnd
  | cons p t ih => exact ih _ (connectStep_peers_nodup acc p hnd)

/-- Effect of the disconnect loop on registry membership. -/
theorem foldl_disconnectStep_hasPeer (ks S : List String)
    (acc : VCState × List Event) (q : String)
    (hnd : (acc.1.peers.map Prod.fst).Nodup) :
    (HasPeer (ks.foldl (disconnectStep S) acc).1 q ↔
      HasPeer acc.1 q ∧ ¬(q ∈ ks ∧ q ∉ S)) := by
  induction ks generalizing acc with
  | nil => simp
  | cons k t ih =>
    rw [List.foldl_cons]
    by_cases hk : k ∈ S
    · have hstep : disconnectStep S acc k = acc := by
        unfold disconnectStep
        rw [if_pos hk]
      rw [hstep, ih acc hnd]
      constructor
      · rintro ⟨h, hn⟩
        refine ⟨h, ?_⟩
        rintro ⟨hq, hqs⟩
        rcases List.mem_cons.mp hq with rfl | hq
        · exact hqs hk
        · exact hn ⟨hq, hqs⟩
      · rintro ⟨h, hn⟩
        refine ⟨h, ?_⟩
        rintro ⟨hq, hqs⟩
        exact hn ⟨List.mem_cons_of_mem _ hq, hqs⟩
    · have hds : (disconnectStep S acc k).1 = (disconnectPeer acc.1 k).1 := by
        unfold disconnectStep
        rw [if_neg hk]
      have hnd' : ((disconnectStep S acc k).1.peers.map Prod.fst).Nodup := by
        rw [hds, disconnectPeer_peers]
        exact keys_nodup_aerase _ _ hnd
      rw [ih (disconnectStep S acc k) hnd', hds]
      have hmem : HasPeer (disconnectPeer acc.1 k).1 q ↔ HasPeer acc.1 q ∧ q ≠ k := by
        unfold HasPeer
        rw [disconnectPeer_peers]
        by_cases hq : q = k
        · subst hq
          rw [alookup_aerase_self_of_nodup hnd]
          simp
        · rw [alookup_aerase_ne _ hq]
          simp [hq]
      rw [hmem]
      constructor
      · rintro ⟨⟨h, hne⟩, hn⟩
        refine ⟨h, ?_⟩
        rintro ⟨hq, hqs⟩
        rcases List.mem_cons.mp hq with rfl | hq
        · exact hne rfl
        · exact hn ⟨hq, hqs⟩
      · rintro ⟨h, hn⟩
        have hne : q ≠ k := by
          rintro rfl
          exact hn ⟨List.mem_cons_self _ _, hk⟩
        refine ⟨⟨h, hne⟩, ?_⟩
        rintro ⟨hq, hqs⟩
        exact hn ⟨List.mem_cons_of_mem _ hq, hqs⟩

/-- The connect loop does nothing when every nearby id is self or already
registered. -/
theorem foldl_connectStep_noop (ns : List String) (acc : VCState × List Event)
    (h : ∀ pid ∈ ns, pid = acc.1.userId ∨ (alookup acc.1.peers pid).isSome = true) :
    ns.foldl connectStep acc = acc := by
  induction ns with
  | nil => rfl
  | cons p t ih =>
    have hstep : connectStep acc p = acc := by
      rcases h p (List.mem_cons_self _ _) with hp | hp
      · unfold connectStep
        rw [if_pos hp]
      · by_cases hself : p = acc.1.userId
        · unfold connectStep
          rw [if_pos hself]
        · unfold connectStep
          rw [if_neg hself, if_pos hp]
    rw [List.foldl_cons, hstep]
    exact ih (fun pid hpid => h pid (List.mem_cons_of_mem _ hpid))

/-- The disconnect loop does nothing when every snapshot key is nearby. -/
theorem foldl_disconnectStep_noop (ks S : List String) (acc : VCState × List Event)
    (h : ∀ k ∈ ks, k ∈ S) : ks.foldl (disconnectStep S) acc = acc := by
  induction ks with
  | nil => rfl
  | cons k t ih =>
    have hstep : disconnectStep S acc k = acc := by
      unfold disconnectStep
      rw [if_pos (h k (List.mem_cons_self _ _))]
    rw [List.foldl_cons, hstep]
    exact ih (fun k0 hk0 => h k0 (List.mem_cons_of_mem _ hk0))

theorem updateNearbyPeers_eq (s : VCState) (S : List String) (r : ℚ)
    (hen : s.enabled = true) :
    updateNearbyPeers s S r =
      ((S.foldl connectStep (s, [])).1.peers.map Prod.fst).foldl
        (disconnectStep S) (S.foldl connectStep (s, [])) := by
  unfold updateNearbyPeers
  rw [if_neg (by simp [hen])]

/-- A call of `updateNearbyPeers` on a state where every nearby id is
already handled and every registered key is nearby does nothing and emits
nothing. -/
theorem updateNearbyPeers_noop (s0 : VCState) (S : List String) (r : ℚ)
    (hen : s0.enabled = true)
    (hN1 : ∀ q ∈ S, q = s0.userId ∨ (alookup s0.peers q).isSome = true)
    (hN2 : ∀ k ∈ s0.peers.map Prod.fst, k ∈ S) :
    updateNearbyPeers s0 S r = (s0, []) := by
  unfold updateNearbyPeers
  rw [if_neg (by simp [hen])]
  rw [foldl_connectStep_noop S (s0, []) hN1]
  rw [foldl_disconnectStep_noop _ S (s0, []) hN2]

/-- C2: calling `updateNearbyPeers` twice in a row with the same nearby set
performs zero connect and zero disconnect actions on the second call — the
state (in particular the registry's key set) is unchanged and the second
call's trace is empty. -/
theorem C2_updateNearbyPeers_idempotent (s : VCState) (S : List String)
    (r1 r2 : ℚ) (hnd : (s.peers.map Prod.fst).Nodup) :
    updateNearbyPeers (updateNearbyPeers s S r1).1 S r2 =
      ((updateNearbyPeers s S r1).1, []) := by
  by_cases hen : s.enabled = true
  · have hen1 : (updateNearbyPeers s S r1).1.enabled = true := by
      rw [updateNearbyPeers_eq s S r1 hen, foldl_disconnectStep_enabled,
        foldl_connectStep_enabled]
      exact hen
    have huid1 : (updateNearbyPeers s S r1).1.userId = s.userId := by
      rw [updateNearbyPeers_eq s S r1 hen, foldl_disconnectStep_userId,
        foldl_connectStep_userId]
    have hchar : ∀ q, HasPeer (updateNearbyPeers s S r1).1 q ↔
        ((HasPeer s q ∨ (q ∈ S ∧ q ≠ s.userId)) ∧
          ¬(q ∈ (S.foldl connectStep (s, [])).1.peers.map Prod.fst ∧ q ∉ S)) := by
      intro q
      rw [updateNearbyPeers_eq s S r1 hen]
      rw [foldl_disconnectStep_hasPeer _ S _ q
        (foldl_connectStep_peers_nodup S (s, []) hnd)]
      rw [foldl_connectStep_hasPeer S (s, []) q hen]
    have hN1 : ∀ q ∈ S, q = (updateNearbyPeers s S r1).1.userId ∨
        (alookup (updateNearbyPeers s S r1).1.peers q).isSome = true := by
      intro q hq
      by_cases hself : q = s.userId
      · left
        rw [huid1]
        exact hself
      · right
        exact (hchar q).mpr ⟨Or.inr ⟨hq, hself⟩, fun hc => hc.2 hq⟩
    have hN2 : ∀ k ∈ (updateNearbyPeers s S r1).1.peers.map Prod.fst, k ∈ S := by
      intro k hk
      have hhk : HasPeer (updateNearbyPeers s S r1).1 k :=
        alookup_isSome_of_mem_keys hk
      obtain ⟨hL, hn⟩ := (hchar k).mp hhk
      by_contra hkS
      apply hn
      refine ⟨?_, hkS⟩
      apply mem_keys_of_alookup_isSome
      exact (foldl_connectStep_hasPeer S (s, []) k hen).mpr hL
    exact updateNearbyPeers_noop _ S r2 hen1 hN1 hN2
  · have h1 : updateNearbyPeers s S r1 = (s, []) := by
      unfold updateNearbyPeers
      rw [if_pos (by simpa using hen)]
    rw [h1]
    unfold updateNearbyPeers
    rw [if_pos (by simpa using hen)]

/-- C2 witness: idempotence evaluated from a concrete state with registry
key `"b"` and nearby set containing `"b"` and a fresh peer `"c"`. -/
theorem C2_updateNearbyPeers_idempotent_witness :
    updateNearbyPeers (updateNearbyPeers sEx ["b", "c"] 500).1 ["b", "c"] 500 =
      ((updateNearbyPeers sEx ["b", "c"] 500).1, []) :=
  C2_updateNearbyPeers_idempotent sEx ["b", "c"] 500 500 (by decide)

/-! ## Claim C4 — teardown on `disable()` -/

/-- Well-formedness of the capture stream: every stream track id has a heap
object. -/
def TrackInv (s : VCState) : Prop :=
  ∀ tid ∈ streamIds s, (alookup s.tracks tid).isSome = true

theorem stopTrack_idem (t : Track) :
    ({ ({ t with stopped := true } : Track) with stopped := true } : Track) =
      { t with stopped := true } := rfl

/-- The claim's reading of "the analysis path (analyser / audio context) is
torn down": neither reference survives `disable()`. -/
def analysisCleared (s : VCState) : Prop :=
  s.analyser = false ∧ s.audioContext = false

/-- C4 counterexample: starting from a successfully initialized instance,
`disable()` leaves both the analyser and the audio context in place — the
analysis path is not torn down, so the claim as stated is false. -/
theorem C4_analysis_path_not_torn_down :
    (disable (init (mkVoiceChat exSettings) (some 1)).2.1).audioContext = true ∧
    (disable (init (mkVoiceChat exSettings) (some 1)).2.1).analyser = true ∧
    ¬analysisCleared (disable (init (mkVoiceChat exSettings) (some 1)).2.1) := by
  refine ⟨by decide, by decide, ?_⟩
  intro h
  have := h.1
  revert this
  decide

/-- C4 (amended): after `disable()` the `peers`, `gains` and `audioElements`
maps are empty, the capture stream reference is cleared, every previously
registered connection is closed, every capture track is stopped, and the
enabled/speaking flags are cleared (halting the VAD loop); the `analyser`
and `audioContext` references, however, are retained unchanged. -/
theorem C4_disable_teardown (s : VCState) (hpi : PeerInv s) (hti : TrackInv s) :
    (disable s).peers = [] ∧ (disable s).gains = [] ∧
    (disable s).audioElements = [] ∧ (disable s).localStream = none ∧
    (disable s).enabled = false ∧ (disable s).isSpeaking = false ∧
    (∀ pid pcId, alookup s.peers pid = some pcId →
      ∃ pc, alookup (disable s).pcs pcId = some pc ∧ pc.closed = true) ∧
    (∀ tid ∈ streamIds s,
      ∃ t, alookup (disable s).tracks tid = some t ∧ t.stopped = true) ∧
    (disable s).audioContext = s.audioContext ∧
    (disable s).analyser = s.analyser := by
  refine ⟨rfl, rfl, rfl, rfl, rfl, rfl, ?_, ?_, rfl, rfl⟩
  · intro pid pcId hv
    have hin : pcId ∈ s.peers.map Prod.snd :=
      List.mem_map.mpr ⟨(pid, pcId), mem_of_alookup_eq_some hv, rfl⟩
    obtain ⟨pc, hpc, -, -⟩ := hpi.2.2.2.1 (pid, pcId) (mem_of_alookup_eq_some hv)
    have hpc' : alookup s.pcs pcId = some pc := hpc
    refine ⟨closePC pc, ?_, rfl⟩
    show alookup (bumpAll closePC (s.peers.map Prod.snd) s.pcs) pcId = some (closePC pc)
    rw [alookup_bumpAll closePC closePC_idem, if_pos hin, hpc']
    rfl
  · intro tid htid
    obtain ⟨t, ht⟩ := Option.isSome_iff_exists.mp (hti tid htid)
    refine ⟨{ t with stopped := true }, ?_, rfl⟩
    show alookup
      (bumpAll (fun t => { t with stopped := true }) (streamIds s) s.tracks) tid =
      some { t with stopped := true }
    rw [alookup_bumpAll _ stopTrack_idem, if_pos htid, ht]
    rfl

/-- C4 witness: the amended teardown property discharged at the concrete
one-peer, one-track fixture state. -/
theorem C4_disable_teardown_witness :
    (disable sEx).peers = [] ∧ (disable sEx).gains = [] ∧
    (disable sEx).audioElements = [] ∧ (disable sEx).localStream = none ∧
    (disable sEx).enabled = false ∧ (disable sEx).isSpeaking = false ∧
    (∀ pid pcId, alookup sEx.peers pid = some pcId →
      ∃ pc, alookup (disable sEx).pcs pcId = some pc ∧ pc.closed = true) ∧
    (∀ tid ∈ streamIds sEx,
      ∃ t, alookup (disable sEx).tracks tid = some t ∧ t.stopped = true) ∧
    (disable sEx).audioContext = sEx.audioContext ∧
    (disable sEx).analyser = sEx.analyser := by
  have hpi : PeerInv sEx := by
    refine ⟨by decide, by decide, ?_, ?_, ?_⟩
    · intro e he
      rw [show sEx.pcs = [(0, pcStable)] from rfl, List.mem_singleton] at he
      subst he
      decide
    · intro e he
      rw [show sEx.peers = [("b", 0)] from rfl, List.mem_singleton] at he
      subst he
      exact ⟨pcStable, rfl, rfl, rfl⟩
    · intro e he
      rw [show sEx.pcs = [(0, pcStable)] from rfl, List.mem_singleton] at he
      subst he
      intro hcl
      rfl
  exact C4_disable_teardown sEx hpi (by unfold TrackInv; decide)

/-! ## Claim C6 — push-to-talk gating -/

/-- C6 counterexample: with VAD (not push-to-talk) as the configured gating
mode, `setPTT false` still rewrites the capture track's gate from `true` to
`false`, so the outbound gate does not change only under the push-to-talk
mode. -/
theorem C6_setPTT_mutates_outside_ptt_mode :
    sEx.settings.ptt = false ∧
    alookup sEx.tracks 0 = some { enabled := true, stopped := false } ∧
    alookup (setPTT sEx false).tracks 0 =
      some { enabled := false, stopped := false } := by
  refine ⟨rfl, rfl, ?_⟩
  decide

/-- C6 (amended): `setPTT(active)` records the gate flag and sets the
`enabled` flag of every capture audio track to mirror `active`
unconditionally — regardless of the configured gating mode; tracks outside
the capture stream and the rest of the state are untouched. -/
theorem C6_setPTT_mirrors_gate (s : VCState) (active : Bool) :
    (setPTT s active).isPTTActive = active ∧
    (∀ tid ∈ streamIds s,
      alookup (setPTT s active).tracks tid =
        (alookup s.tracks tid).map (fun t => { t with enabled := active })) ∧
    (∀ tid, tid ∉ streamIds s →
      alookup (setPTT s active).tracks tid = alookup s.tracks tid) ∧
    (s.localStream = none → (setPTT s active).tracks = s.tracks) ∧
    (setPTT s active).peers = s.peers ∧
    (setPTT s active).enabled = s.enabled ∧
    (setPTT s active).localStream = s.localStream := by
  have hidem : ∀ t : Track,
      ({ ({ t with enabled := active } : Track) with enabled := active } : Track) =
        { t with enabled := active } := fun t => rfl
  refine ⟨rfl, ?_, ?_, ?_, rfl, rfl, rfl⟩
  · intro tid htid
    show alookup
      (bumpAll (fun t => { t with enabled := active }) (streamIds s) s.tracks) tid = _
    rw [alookup_bumpAll _ hidem, if_pos htid]
  · intro tid htid
    show alookup
      (bumpAll (fun t => { t with enabled := active }) (streamIds s) s.tracks) tid = _
    rw [alookup_bumpAll _ hidem, if_neg htid]
  · intro hnone
    show bumpAll (fun t => { t with enabled := active }) (streamIds s) s.tracks = _
    unfold streamIds
    rw [hnone]
    rfl

/-- C6 witness: the amended mirroring property evaluated at the fixture
state for both gate directions on the concrete capture track. -/
theorem C6_setPTT_mirrors_gate_witness :
    (setPTT sEx false).isPTTActive = false ∧
    alookup (setPTT sEx false).tracks 0 =
      (alookup sEx.tracks 0).map (fun t => { t with enabled := false }) ∧
    alookup (setPTT sEx true).tracks 1 = alookup sEx.tracks 1 :=
  ⟨(C6_setPTT_mirrors_gate sEx false).1,
    (C6_setPTT_mirrors_gate sEx false).2.1 0 (by decide),
    (C6_setPTT_mirrors_gate sEx true).2.2.1 1 (by decide)⟩

/-! ## Claim C5 — spatial gain -/

/-- The fixture with the master volume slider configured to `0`. -/
def sVol0 : VCState :=
  { sEx with settings := { exSettings with volume := 0 } }

theorem spatialVolume_at_zero_master :
    spatialVolume 0 100 0 = 7/10 := by
  unfold spatialVolume jsOrQ
  rw [show (0:ℝ)/100 = 0 by norm_num,
    Real.zero_rpow (by norm_num : (0.8:ℝ) ≠ 0)]
  rw [sub_zero, max_eq_right zero_le_one, one_mul]
  norm_num

/-- C5 counterexample: with the master volume setting equal to `0`, the
emitted target at distance `0` is `0.7` (the `|| 0.7` fallback also
swallows a configured `0`), while the claim's formula — the shaping term
multiplied by the master volume setting — gives `0`. -/
theorem C5_zero_master_volume_diverges :
    sVol0.settings.volume = 0 ∧
    (updateSpatialAudio sVol0 "b" 0 100).2 = some ((7:ℝ)/10) ∧
    spatialVolumeSpec 0 100 sVol0.settings.volume = 0 ∧
    ((7:ℝ)/10) ≠ 0 := by
  refine ⟨rfl, ?_, ?_, by norm_num⟩
  · unfold updateSpatialAudio
    rw [if_neg (by simp [sVol0, sEx])]
    rw [show sVol0.settings.volume = 0 from rfl, spatialVolume_at_zero_master]
  · rw [show sVol0.settings.volume = 0 from rfl]
    unfold spatialVolumeSpec
    simp

/-- C5 (amended): with a registered gain node and an active audio context,
`updateSpatialAudio` emits the target
`max(0, 1 - (d/maxD)^0.8) * v` where `v` is the master volume setting when
that setting is nonzero and the default `0.7` otherwise; for a nonnegative
master setting and fixed `maxD > 0` the target is non-increasing in the
distance and equals `0` whenever `distance ≥ maxDistance`; with no gain
node or no audio context the call is a no-op emitting nothing. -/
theorem C5_spatial_gain (s : VCState) (pid : String) (d maxD : ℝ) :
    ((pid ∈ s.gains ∧ s.audioContext = true) →
      updateSpatialAudio s pid d maxD =
        (s, some (spatialVolume d maxD s.settings.volume))) ∧
    ((pid ∉ s.gains ∨ s.audioContext = false) →
      updateSpatialAudio s pid d maxD = (s, none)) ∧
    (∀ (d1 d2 : ℝ) (v : ℚ), 0 ≤ v → 0 ≤ d1 → d1 ≤ d2 → 0 < maxD →
      spatialVolume d2 maxD v ≤ spatialVolume d1 maxD v) ∧
    (∀ v : ℚ, 0 < maxD → maxD ≤ d → spatialVolume d maxD v = 0) := by
  refine ⟨?_, ?_, ?_, ?_⟩
  · rintro ⟨hg, hc⟩
    unfold updateSpatialAudio
    rw [if_neg (by simp [hg, hc])]
  · intro h
    unfold updateSpatialAudio
    rw [if_pos ?_]
    rcases h with h | h
    · exact Or.inl h
    · exact Or.inr (by simp [h])
  · intro d1 d2 v hv h0 h12 hmax
    unfold spatialVolume
    apply mul_le_mul_of_nonneg_right
    · apply max_le_max le_rfl
      apply sub_le_sub_left
      apply Real.rpow_le_rpow (div_nonneg h0 hmax.le)
      · exact (div_le_div_iff_of_pos_right hmax).mpr h12
      · norm_num
    · show (0:ℝ) ≤ ((if v = 0 then (7:ℚ)/10 else v : ℚ) : ℝ)
      by_cases hz : v = 0
      · rw [if_pos hz]
        norm_num
      · rw [if_neg hz]
        exact_mod_cast hv
  · intro v hmax hd
    unfold spatialVolume
    have h1 : (1:ℝ) ≤ d / maxD := (one_le_div hmax).mpr hd
    have h2 : (1:ℝ) ≤ (d / maxD) ^ (0.8:ℝ) := by
      calc (1:ℝ) = (1:ℝ) ^ (0.8:ℝ) := (Real.one_rpow _).symm
      _ ≤ (d / maxD) ^ (0.8:ℝ) := Real.rpow_le_rpow zero_le_one h1 (by norm_num)
    rw [max_eq_left (by linarith), zero_mul]

/-- C5 witness: the amended spatial-gain property at concrete inputs — the
emitted target at the fixture, the no-op for an unknown peer, monotonicity
between distances 1 and 2 at range 4, and silence at distance 5 ≥ range 4. -/
theorem C5_spatial_gain_witness :
    updateSpatialAudio sEx "b" 30 100 =
      (sEx, some (spatialVolume 30 100 sEx.settings.volume)) ∧
    updateSpatialAudio sEx "z" 30 100 = (sEx, none) ∧
    spatialVolume 2 4 (1/2) ≤ spatialVolume 1 4 (1/2) ∧
    spatialVolume 5 4 (1/2) = 0 :=
  ⟨(C5_spatial_gain sEx "b" 30 100).1 ⟨by decide, rfl⟩,
    (C5_spatial_gain sEx "z" 30 100).2.1 (Or.inl (by decide)),
    (C5_spatial_gain sEx "b" 0 4).2.2.1 1 2 (1/2) (by norm_num) (by norm_num)
      (by norm_num) (by norm_num),
    (C5_spatial_gain sEx "b" 5 4).2.2.2 (1/2) (by norm_num) (by norm_num)⟩

/-! ## Claim C8 — voice-activity evaluation -/

/-- The effective threshold exactly as the claim words it:
`base_threshold * (1 + (1 - sensitivity))`. -/
def specEffectiveThreshold (base sens : ℚ) : ℚ :=
  base * (1 + (1 - sens))

/-- The fixture with the sensitivity setting configured to `0`. -/
def sSens0 : VCState :=
  { sEx with settings := { exSettings with sensitivity := some 0 } }

/-- C8 counterexample: with sensitivity configured to `0` the claim's
formula gives threshold `base * 2`, but the source's `sensitivity || 0.5`
fallback also swallows the configured `0`, yielding `base * 1.5`; at frame
level `9/255` the code decides "speaking" although the level is below the
claim's threshold. -/
theorem C8_sensitivity_zero_diverges :
    sSens0.settings.sensitivity = some 0 ∧
    (vadFrame sSens0 [9]).1.isSpeaking = true ∧
    ¬(avgOf [9] > specEffectiveThreshold sSens0.vadThreshold 0) := by
  refine ⟨rfl, ?_, ?_⟩
  · unfold vadFrame
    rw [if_neg (by simp [sSens0, sEx])]
    simp only [show sSens0.settings.ptt = false from rfl, Bool.false_eq_true,
      if_false, show sSens0.settings.vad = none from rfl, ne_eq,
      reduceCtorEq, not_false_iff, if_true]
    rw [decide_eq_true_iff]
    rw [show sSens0.vadThreshold = 1/50 from rfl,
      show jsOrQ sSens0.settings.sensitivity (1/2) = 1/2 from rfl]
    unfold avgOf
    norm_num
  · rw [show sSens0.vadThreshold = 1/50 from rfl]
    unfold avgOf specEffectiveThreshold
    norm_num

/-- C8 (amended): on each VAD frame (enabled, analyser present) the level is
the byte mean normalized to `[0,1]`; it is compared against
`base * (1 + (1 - sensitivity))` where a missing *or zero* sensitivity
falls back to `0.5`; in push-to-talk mode `isSpeaking` additionally
requires the gate and uses half the threshold; the speaking callback fires
precisely when the boolean changed, and the volume callback fires on every
frame with the normalized level. -/
theorem C8_vad_frame (s : VCState) (bytes : List ℕ)
    (hen : s.enabled = true) (han : s.analyser = true) :
    (s.settings.ptt = true →
      (vadFrame s bytes).1.isSpeaking =
        (s.isPTTActive && decide (avgOf bytes >
          s.vadThreshold * (1 + (1 - jsOrQ s.settings.sensitivity (1/2))) * (1/2)))) ∧
    (s.settings.ptt = false → s.settings.vad ≠ some false →
      (vadFrame s bytes).1.isSpeaking =
        decide (avgOf bytes >
          s.vadThreshold * (1 + (1 - jsOrQ s.settings.sensitivity (1/2))))) ∧
    ((vadFrame s bytes).2.1.isSome = true ↔
      (vadFrame s bytes).1.isSpeaking ≠ s.isSpeaking) ∧
    ((vadFrame s bytes).2.2 = some (avgOf bytes)) ∧
    (bytes ≠ [] → (∀ b ∈ bytes, b ≤ 255) →
      0 ≤ avgOf bytes ∧ avgOf bytes ≤ 1) := by
  have hguard : (¬s.enabled = true ∨ ¬s.analyser = true) = False := by
    simp [hen, han]
  refine ⟨?_, ?_, ?_, ?_, ?_⟩
  · intro hptt
    unfold vadFrame
    rw [if_neg (by simp [hen, han])]
    simp only [hptt, if_true]
  · intro hptt hvad
    unfold vadFrame
    rw [if_neg (by simp [hen, han])]
    simp only [hptt, Bool.false_eq_true, if_false, hvad, ne_eq,
      not_false_iff, if_true]
  · unfold vadFrame
    rw [if_neg (by simp [hen, han])]
    by_cases hch :
        (if s.settings.ptt then
            s.isPTTActive && decide (avgOf bytes >
              s.vadThreshold * (1 + (1 - jsOrQ s.settings.sensitivity (1/2))) * (1/2))
          else if s.settings.vad ≠ some false then
            decide (avgOf bytes >
              s.vadThreshold * (1 + (1 - jsOrQ s.settings.sensitivity (1/2))))
          else s.isSpeaking) ≠ s.isSpeaking
    · simp [hch]
    · simp [hch]
  · unfold vadFrame
    rw [if_neg (by simp [hen, han])]
  · intro hne hb
    constructor
    · unfold avgOf
      positivity
    · unfold avgOf
      have hlen : 0 < (bytes.length : ℚ) := by
        have : 0 < bytes.length := List.length_pos.mpr hne
        exact_mod_cast this
      have hsumN : bytes.sum ≤ bytes.length * 255 := by
        have := List.sum_le_card_nsmul bytes 255 hb
        simpa using this
      have hsum : (bytes.sum : ℚ) ≤ (bytes.length : ℚ) * 255 := by
        exact_mod_cast hsumN
      rw [div_div]
      rw [div_le_one (by positivity)]
      calc (bytes.sum : ℚ) ≤ (bytes.length : ℚ) * 255 := hsum
      _ = (bytes.length : ℚ) * 255 := rfl

/-- C8 witness: the amended frame property at the fixture (VAD mode) and a
push-to-talk variant, with the normalization bounds at the concrete frame. -/
theorem C8_vad_frame_witness :
    ((vadFrame sEx [9]).1.isSpeaking =
      decide (avgOf [9] >
        sEx.vadThreshold * (1 + (1 - jsOrQ sEx.settings.sensitivity (1/2))))) ∧
    ((vadFrame sEx [9]).2.2 = some (avgOf [9])) ∧
    (0 ≤ avgOf [9] ∧ avgOf [9] ≤ 1) :=
  ⟨(C8_vad_frame sEx [9] rfl rfl).2.1 rfl (by decide),
    (C8_vad_frame sEx [9] rfl rfl).2.2.2.1,
    (C8_vad_frame sEx [9] rfl rfl).2.2.2.2 (by simp) (by decide)⟩

/-! ## Claim C9 — bot movement -/

/-- A concrete bot near the world center (distance 10 from the origin),
heading 1, at rest. -/
def botEx : Bot :=
  { id := "bot-1", x := -10, y := 0, vx := 0, vy := 0, hue := 200
    name := "Guardian", xp := 100, moveAngle := 1
    timer := 0, actionTimer := 0, thinkTimer := 0, realm := "genesis" }

theorem updateBot_moveAngle_none (b : Bot) (r1 r2 : ℝ) (hj : ¬r1 < 0.02)
    (hc : ¬campfireRadius < Real.sqrt (b.x ^ 2 + b.y ^ 2)) :
    (updateBot b none r1 r2).moveAngle = b.moveAngle := by
  simp only [updateBot]
  rw [if_neg hc, if_neg hj]

theorem botEx_dist_center : Real.sqrt (botEx.x ^ 2 + botEx.y ^ 2) = 10 := by
  show Real.sqrt ((-10:ℝ) ^ 2 + (0:ℝ) ^ 2) = 10
  rw [show ((-10:ℝ) ^ 2 + (0:ℝ) ^ 2) = 10 ^ 2 by norm_num]
  exact Real.sqrt_sq (by norm_num)

theorem atan2_center_botEx : atan2 (-botEx.y) (-botEx.x) = 0 := by
  show atan2 (-(0:ℝ)) (-(-10:ℝ)) = 0
  unfold atan2
  rw [if_pos (by norm_num : (0:ℝ) < -(-10:ℝ))]
  norm_num

/-- C9 counterexample: for a bot 10 units from the origin with no target,
the code leaves the heading unchanged (the center spring only fires beyond
`CAMPFIRE_RADIUS = 1200`), while the claim's "else springs toward the world
center" predicts a changed heading. -/
theorem C9_no_center_spring_within_radius :
    (updateBot botEx none (1/2) (1/2)).moveAngle = 1 ∧
    (updateBotSpec botEx none).moveAngle = 9/10 ∧
    (1:ℝ) ≠ 9/10 := by
  refine ⟨?_, ?_, by norm_num⟩
  · rw [updateBot_moveAngle_none botEx (1/2) (1/2) (by norm_num)
      (by rw [botEx_dist_center]; norm_num [campfireRadius])]
    exact rfl
  · unfold updateBotSpec
    rw [atan2_center_botEx]
    rw [show botEx.moveAngle = 1 from rfl]
    norm_num

/-- C9 (amended): `updateBot` (with the two `Math.random()` draws passed as
inputs `r1`, `r2`) increments the three timers; adds the velocity to the
position and, before that, adds an impulse of 0.2 along the *final* heading
to the velocity and damps it by 0.94; and (absent the 2% jitter,
`¬ r1 < 0.02`) the heading springs 5% toward the target exactly when the
target distance is strictly between 100 and 400, and — independently, not
as an "else" — springs 10% toward the world center exactly when the
distance to the origin exceeds `CAMPFIRE_RADIUS = 1200`; within that radius
and out of band the heading is unchanged. -/
theorem C9_updateBot_movement (b : Bot) (t : Option (ℝ × ℝ)) (r1 r2 : ℝ) :
    ((updateBot b t r1 r2).x = b.x + (updateBot b t r1 r2).vx ∧
      (updateBot b t r1 r2).y = b.y + (updateBot b t r1 r2).vy) ∧
    ((updateBot b t r1 r2).vx =
        (b.vx + Real.cos (updateBot b t r1 r2).moveAngle * 0.2) * 0.94 ∧
      (updateBot b t r1 r2).vy =
        (b.vy + Real.sin (updateBot b t r1 r2).moveAngle * 0.2) * 0.94) ∧
    ((updateBot b t r1 r2).timer = b.timer + 1 ∧
      (updateBot b t r1 r2).actionTimer = b.actionTimer + 1 ∧
      (updateBot b t r1 r2).thinkTimer = b.thinkTimer + 1) ∧
    (¬r1 < 0.02 → t = none →
      ¬campfireRadius < Real.sqrt (b.x ^ 2 + b.y ^ 2) →
      (updateBot b t r1 r2).moveAngle = b.moveAngle) ∧
    (¬r1 < 0.02 → t = none →
      campfireRadius < Real.sqrt (b.x ^ 2 + b.y ^ 2) →
      (updateBot b t r1 r2).moveAngle =
        b.moveAngle * 0.9 + atan2 (-b.y) (-b.x) * 0.1) ∧
    (∀ tx ty, ¬r1 < 0.02 → t = some (tx, ty) →
      (Real.sqrt ((b.x - tx) ^ 2 + (b.y - ty) ^ 2) < 400 ∧
        100 < Real.sqrt ((b.x - tx) ^ 2 + (b.y - ty) ^ 2)) →
      ¬campfireRadius < Real.sqrt (b.x ^ 2 + b.y ^ 2) →
      (updateBot b t r1 r2).moveAngle =
        b.moveAngle * 0.95 + atan2 (ty - b.y) (tx - b.x) * 0.05) ∧
    (∀ tx ty, ¬r1 < 0.02 → t = some (tx, ty) →
      ¬(Real.sqrt ((b.x - tx) ^ 2 + (b.y - ty) ^ 2) < 400 ∧
        100 < Real.sqrt ((b.x - tx) ^ 2 + (b.y - ty) ^ 2)) →
      ¬campfireRadius < Real.sqrt (b.x ^ 2 + b.y ^ 2) →
      (updateBot b t r1 r2).moveAngle = b.moveAngle) ∧
    (∀ tx ty, ¬r1 < 0.02 → t = some (tx, ty) →
      (Real.sqrt ((b.x - tx) ^ 2 + (b.y - ty) ^ 2) < 400 ∧
        100 < Real.sqrt ((b.x - tx) ^ 2 + (b.y - ty) ^ 2)) →
      campfireRadius < Real.sqrt (b.x ^ 2 + b.y ^ 2) →
      (updateBot b t r1 r2).moveAngle =
        (b.moveAngle * 0.95 + atan2 (ty - b.y) (tx - b.x) * 0.05) * 0.9 +
          atan2 (-b.y) (-b.x) * 0.1) ∧
    (∀ tx ty, ¬r1 < 0.02 → t = some (tx, ty) →
      ¬(Real.sqrt ((b.x - tx) ^ 2 + (b.y - ty) ^ 2) < 400 ∧
        100 < Real.sqrt ((b.x - tx) ^ 2 + (b.y - ty) ^ 2)) →
      campfireRadius < Real.sqrt (b.x ^ 2 + b.y ^ 2) →
      (updateBot b t r1 r2).moveAngle =
        b.moveAngle * 0.9 + atan2 (-b.y) (-b.x) * 0.1) := by
  refine ⟨⟨rfl, rfl⟩, ⟨rfl, rfl⟩, ⟨rfl, rfl, rfl⟩, ?_, ?_, ?_, ?_, ?_, ?_⟩
  · intro hj ht hc
    subst ht
    exact updateBot_moveAngle_none b r1 r2 hj hc
  · intro hj ht hc
    subst ht
    simp only [updateBot]
    rw [if_pos hc, if_neg hj]
  · intro tx ty hj ht hband hc
    subst ht
    simp only [updateBot]
    rw [if_neg hc, if_pos hband, if_neg hj]
  · intro tx ty hj ht hband hc
    subst ht
    simp only [updateBot]
    rw [if_neg hc, if_neg hband, if_neg hj]
  · intro tx ty hj ht hband hc
    subst ht
    simp only [updateBot]
    rw [if_pos hc, if_pos hband, if_neg hj]
  · intro tx ty hj ht hband hc
    subst ht
    simp only [updateBot]
    rw [if_pos hc, if_neg hband, if_neg hj]

/-- A concrete bot beyond the campfire radius (distance 1300 from the
origin), heading 1, at rest. -/
def botFar : Bot :=
  { id := "bot-2", x := 1300, y := 0, vx := 0, vy := 0, hue := 200
    name := "Guardian", xp := 100, moveAngle := 1
    timer := 0, actionTimer := 0, thinkTimer := 0, realm := "genesis" }

theorem botFar_dist_center : Real.sqrt (botFar.x ^ 2 + botFar.y ^ 2) = 1300 := by
  show Real.sqrt ((1300:ℝ) ^ 2 + (0:ℝ) ^ 2) = 1300
  rw [show ((1300:ℝ) ^ 2 + (0:ℝ) ^ 2) = 1300 ^ 2 by norm_num]
  exact Real.sqrt_sq (by norm_num)

theorem botFar_dist_target :
    Real.sqrt ((botFar.x - 1500) ^ 2 + (botFar.y - 0) ^ 2) = 200 := by
  show Real.sqrt (((1300:ℝ) - 1500) ^ 2 + ((0:ℝ) - 0) ^ 2) = 200
  rw [show (((1300:ℝ) - 1500) ^ 2 + ((0:ℝ) - 0) ^ 2) = 200 ^ 2 by norm_num]
  exact Real.sqrt_sq (by norm_num)

/-- C9 witness: the movement equations, the no-spring heading case at the
concrete bot near the origin, and the composed target-plus-center spring at
the concrete bot beyond the campfire radius with an in-band target. -/
theorem C9_updateBot_movement_witness :
    ((updateBot botEx none (1/2) (1/2)).x =
      botEx.x + (updateBot botEx none (1/2) (1/2)).vx) ∧
    ((updateBot botEx none (1/2) (1/2)).vx =
      (botEx.vx + Real.cos (updateBot botEx none (1/2) (1/2)).moveAngle * 0.2) * 0.94) ∧
    ((updateBot botEx none (1/2) (1/2)).timer = botEx.timer + 1) ∧
    ((updateBot botEx none (1/2) (1/2)).moveAngle = botEx.moveAngle) ∧
    ((updateBot botFar (some (1500, 0)) (1/2) (1/2)).moveAngle =
      (botFar.moveAngle * 0.95 + atan2 (0 - botFar.y) (1500 - botFar.x) * 0.05) * 0.9 +
        atan2 (-botFar.y) (-botFar.x) * 0.1) :=
  ⟨(C9_updateBot_movement botEx none (1/2) (1/2)).1.1,
    (C9_updateBot_movement botEx none (1/2) (1/2)).2.1.1,
    (C9_updateBot_movement botEx none (1/2) (1/2)).2.2.1.1,
    (C9_updateBot_movement botEx none (1/2) (1/2)).2.2.2.1 (by norm_num) rfl
      (by rw [botEx_dist_center]; norm_num [campfireRadius]),
    (C9_updateBot_movement botFar (some (1500, 0)) (1/2) (1/2)).2.2.2.2.2.2.2.1
      1500 0 (by norm_num) rfl
      (by rw [botFar_dist_target]; norm_num)
      (by rw [botFar_dist_center]; norm_num [campfireRadius])⟩

end Aura
